import Mathlib

/-!
Verification development for the carla-nextjs route-to-tool pipeline.

The TypeScript sources are shallowly embedded over `Str := List Char`:
JavaScript strings become character lists, regex-based `replace`/`matchAll`
calls become explicit recursive scanners with the same matching semantics,
and the `Tool` / `MethodInfo` records become Lean structures mirroring the
interfaces in `src/types/index.ts`.
-/

set_option autoImplicit false
set_option linter.unusedVariables false

namespace Carla

/-- Embedded JavaScript string: a list of characters. -/
abbrev Str := List Char

/-- Coerce a Lean string literal to the embedded string type. -/
def str (s : String) : Str := s.data

/-- Left brace character, `\x7b`. -/
def braceL : Char := Char.ofNat 123

/-- `s.includes(pat)`: some suffix of `s` starts with `pat`
(the scan JavaScript regex search performs). -/
def containsSub (pat : Str) : Str → Bool
  | [] => pat.isPrefixOf []
  | l@(_ :: rest) => pat.isPrefixOf l || containsSub pat rest

/-- `s.replace(/pat$/, '')`: drop `pat` when it is a suffix of `s`. -/
def dropSuffix (pat s : Str) : Str :=
  if pat.isSuffixOf s then s.take (s.length - pat.length) else s

/-- `s.toLowerCase()` (ASCII range, as the tool names in play are ASCII). -/
def toLowerStr (s : Str) : Str := s.map Char.toLower

/-- `s.trim()`: strip whitespace from both ends. -/
def trimStr (s : Str) : Str :=
  ((s.dropWhile Char.isWhitespace).reverse.dropWhile Char.isWhitespace).reverse

/-- A string is blank when it is empty or whitespace-only
(the `!s || s.trim() === ''` test in the fixer). -/
def isBlank (s : Str) : Bool := (trimStr s).isEmpty

/-- `s.replace(/__+/g, '_')`: collapse every run of underscores to one
(each maximal run of two or more `_` is replaced by a single `_`, which
leaves every maximal underscore run of the input as exactly one `_`). -/
def collapseUnderscores : Str → Str
  | [] => []
  | [c] => [c]
  | c₁ :: c₂ :: rest =>
    if c₁ = '_' && c₂ = '_' then collapseUnderscores (c₂ :: rest)
    else c₁ :: collapseUnderscores (c₂ :: rest)

/-- `s.replace(/^_+|_+$/g, '')`: strip leading and trailing underscore runs. -/
def trimUnderscores (s : Str) : Str :=
  ((s.dropWhile (· = '_')).reverse.dropWhile (· = '_')).reverse

/-- `[...new Set(l)]`: keep the first occurrence of each element. -/
def dedupeAux (seen : List Str) : List Str → List Str
  | [] => []
  | x :: rest =>
    if x ∈ seen then dedupeAux seen rest else x :: dedupeAux (x :: seen) rest

/-- `[...new Set(l)]` with no elements seen yet. -/
def dedupeFirst (l : List Str) : List Str := dedupeAux [] l

/-- `s.split('/')`-style splitting on a single character. -/
def splitChar (sep : Char) : Str → List Str
  | [] => [[]]
  | c :: rest =>
    if c = sep then [] :: splitChar sep rest
    else
      match splitChar sep rest with
      | [] => [[c]]
      | s :: ss => (c :: s) :: ss

/-- The suffix of `l` after the first occurrence of `p`, if `p` occurs. -/
def afterFirst (p : Str) : Str → Option Str
  | [] => if p.isPrefixOf ([] : Str) then some [] else none
  | l@(_ :: rest) =>
    if p.isPrefixOf l then some (l.drop p.length) else afterFirst p rest

/-- `p` occurs in `l` and `q` occurs after (the end of) that occurrence. -/
def containsInOrder (p q l : Str) : Bool :=
  match afterFirst p l with
  | some r => containsSub q r
  | none => false

/-- Adjacent-pair scan: no two neighbouring characters both satisfy `bad`. -/
def noAdjPair (bad : Char → Bool) : Str → Bool
  | c₁ :: c₂ :: rest => !(bad c₁ && bad c₂) && noAdjPair bad (c₂ :: rest)
  | _ => true

/-- The characters `generateToolName` rewrites to `_`, together with `_`. -/
def sepChar (c : Char) : Bool :=
  c = '/' || c = ':' || c = '-' || c = '_'

/-- Single-pass scanner implementing `s.replace(/\[([^\]]+)\]/g, ':$1')`.
The `Option Str` state carries the (reversed) characters read since an
opening `[` that has not been closed yet. A group `[name]` with nonempty
`name` (any characters other than `]`) is rewritten to `:name`; an empty
group `[]` and an unclosed trailing `[...` are copied verbatim, exactly as
the global regex leaves them unmatched. -/
def convertBracketsAux : Option Str → Str → Str
  | none, [] => []
  | some acc, [] => '[' :: acc.reverse
  | none, c :: rest =>
    if c = '[' then convertBracketsAux (some []) rest
    else c :: convertBracketsAux none rest
  | some acc, c :: rest =>
    if c = ']' then
      if acc.isEmpty then '[' :: ']' :: convertBracketsAux none rest
      else ':' :: acc.reverse ++ convertBracketsAux none rest
    else convertBracketsAux (some (c :: acc)) rest

/-- `s.replace(/\[([^\]]+)\]/g, ':$1')`. -/
def convertBrackets (l : Str) : Str := convertBracketsAux none l

/-- Single-pass scanner implementing `s.matchAll(/\[([^\]]+)\]/g)`:
collects the bracket-group contents in order, with the same matching
semantics as `convertBracketsAux`. -/
def extractBracketNamesAux : Option Str → Str → List Str
  | _, [] => []
  | none, c :: rest =>
    if c = '[' then extractBracketNamesAux (some []) rest
    else extractBracketNamesAux none rest
  | some acc, c :: rest =>
    if c = ']' then
      if acc.isEmpty then extractBracketNamesAux none rest
      else acc.reverse :: extractBracketNamesAux none rest
    else extractBracketNamesAux (some (c :: acc)) rest

/-- `s.matchAll(/\[([^\]]+)\]/g)`: the bracket-group contents, in order. -/
def extractBracketNames (l : Str) : List Str := extractBracketNamesAux none l

/-! ### Data model (`src/types/index.ts` and the scanner interfaces) -/

/-- The HTTP verbs the scanner recognizes
(`method: 'GET' | 'POST' | 'PUT' | 'DELETE' | 'PATCH'`). -/
inductive HttpMethod where
  | GET | POST | PUT | DELETE | PATCH
deriving DecidableEq, Repr

/-- `method.toLowerCase()` for the five verbs. -/
def HttpMethod.lower : HttpMethod → Str
  | .GET => str "get"
  | .POST => str "post"
  | .PUT => str "put"
  | .DELETE => str "delete"
  | .PATCH => str "patch"

/-- `ParamInfo` from the scanner: name, type, required, optional description. -/
structure ParamInfo where
  name : Str
  type : Str
  required : Bool
  description : Option Str
deriving DecidableEq, Repr

/-- `MethodInfo` from the scanner. -/
structure MethodInfo where
  method : HttpMethod
  endpoint : Str
  params : List ParamInfo
  bodyParams : List ParamInfo
  hasAuth : Bool
deriving DecidableEq, Repr

/-- `RouteInfo` from the scanner. -/
structure RouteInfo where
  filePath : Str
  relativePath : Str
  methods : List MethodInfo
deriving DecidableEq, Repr

/-- One entry of `parameters.properties`: `{ type, description }`. -/
structure ParamProp where
  type : Str
  description : Str
deriving DecidableEq, Repr

/-- The `parameters` block of a `Tool`. -/
structure ToolParameters where
  type : Str
  properties : List (Str × ParamProp)
  required : List Str
deriving DecidableEq, Repr

/-- A `fixed_params` entry (`{ field_name, field_value }`). -/
structure FixedParam where
  field_name : Str
  field_value : Str
deriving DecidableEq, Repr

/-- The persisted `Tool` record (`src/types/index.ts`). -/
structure Tool where
  id : Str
  name : Str
  description : Str
  instruction : Str
  source : Str
  enabled : Bool
  method : HttpMethod
  endpoint : Str
  parameters : ToolParameters
  fixed_params : Option (List FixedParam)
  auth : Option Str
  issues : Option (List Str)
deriving DecidableEq, Repr

/-! ### `ApiRouteScanner` (src/cli/scanner/api-routes.ts) -/

namespace ApiRouteScanner

/-- `.replace(/\.(ts|js|tsx|jsx)$/, '')`. -/
def stripExt (p : Str) : Str :=
  if (str ".ts").isSuffixOf p then dropSuffix (str ".ts") p
  else if (str ".js").isSuffixOf p then dropSuffix (str ".js") p
  else if (str ".tsx").isSuffixOf p then dropSuffix (str ".tsx") p
  else if (str ".jsx").isSuffixOf p then dropSuffix (str ".jsx") p
  else p

/-- `.replace(/^(src\/)?app\/api\//, '/')`. -/
def stripAppApi (p : Str) : Str :=
  if (str "src/app/api/").isPrefixOf p then '/' :: p.drop 12
  else if (str "app/api/").isPrefixOf p then '/' :: p.drop 8
  else p

/-- `.replace(/^(src\/)?pages\/api\//, '/')`. -/
def stripPagesApi (p : Str) : Str :=
  if (str "src/pages/api/").isPrefixOf p then '/' :: p.drop 14
  else if (str "pages/api/").isPrefixOf p then '/' :: p.drop 10
  else p

/-- The extension / `/route` / `/index` / api-directory stripping steps of
`pathToEndpoint`, before bracket conversion. -/
def stripPhase (relativePath : Str) : Str :=
  stripPagesApi (stripAppApi
    (dropSuffix (str "/index") (dropSuffix (str "/route") (stripExt relativePath))))

/-- `ApiRouteScanner.pathToEndpoint` (fix.ts lines 950-969). -/
def pathToEndpoint (relativePath : Str) : Str :=
  let endpoint := convertBrackets (stripPhase relativePath)
  let endpoint2 := if (str "/api").isPrefixOf endpoint then endpoint
                   else str "/api" ++ endpoint
  if endpoint2.isEmpty then str "/api" else endpoint2

/-- `ApiRouteScanner.extractParams` (fix.ts lines 974-990); the function
ignores its AST-node argument and scans the relative path. -/
def extractParams (relativePath : Str) : List ParamInfo :=
  (extractBracketNames relativePath).map (fun paramName =>
    { name := paramName
      type := str "string"
      required := true
      description := some (str "The " ++ paramName ++ str " parameter") })

end ApiRouteScanner

/-! ### `ToolGenerator` (src/cli/generator/tool-generator.ts) -/

namespace ToolGenerator

/-- `properties[name] = value` on a JavaScript object: update in place if the
key exists, otherwise append. -/
def upsert (l : List (Str × ParamProp)) (k : Str) (v : ParamProp) :
    List (Str × ParamProp) :=
  match l with
  | [] => [(k, v)]
  | (k', v') :: rest => if k' = k then (k, v) :: rest else (k', v') :: upsert rest k v

/-- The char-replacement step of `generateToolName`:
`name.replace(/[/:-]/g, '_')`. -/
def replaceSep (s : Str) : Str :=
  s.map (fun c => if c = '/' || c = ':' || c = '-' then '_' else c)

/-- `endpoint.replace(/^\/api/, '')`. -/
def dropApi : Str → Str
  | '/' :: 'a' :: 'p' :: 'i' :: rest => rest
  | l => l

/-- `name.replace(/^\//, '')`. -/
def dropSlash : Str → Str
  | '/' :: rest => rest
  | l => l

/-- `ToolGenerator.generateToolName` (tool-generator.ts lines 107-134). -/
def generateToolName (endpoint : Str) (method : HttpMethod) : Str :=
  let name0 := replaceSep (dropSlash (dropApi endpoint))
  let methodPfx := method.lower
  let name1 :=
    if containsSub (str "_id") name0 || ['_'].isSuffixOf name0 then
      dropSuffix (str "_") (dropSuffix (str "_id") name0)
    else name0
  let name2 := if name1.isEmpty then str "root" else name1
  collapseUnderscores (methodPfx ++ '_' :: name2)

/-- `ToolGenerator.extractResourceName` (tool-generator.ts lines 189-208). -/
def extractResourceName (endpoint : Str) : Str :=
  let name := dropApi endpoint
  let segments := (splitChar '/' name).filter
    (fun s => !s.isEmpty && !([':'].isPrefixOf s))
  match segments.getLast? with
  | none => str "resource"
  | some resourceName =>
    if ['s'].isSuffixOf resourceName && decide (2 < resourceName.length) then
      resourceName.dropLast
    else resourceName

/-- `ToolGenerator.generateDescription` (tool-generator.ts lines 139-159);
the `default` arm of the source switch is unreachable because the method
type is the closed five-verb union. -/
def generateDescription (endpoint : Str) (method : HttpMethod) : Str :=
  let resource := extractResourceName endpoint
  match method with
  | .GET =>
    if containsSub (str ":id") endpoint || containsSub (str ":") endpoint then
      str "Get " ++ resource ++ str " by ID"
    else str "List all " ++ resource
  | .POST => str "Create a new " ++ resource
  | .PUT => str "Update " ++ resource ++ str " by ID"
  | .PATCH => str "Partially update " ++ resource ++ str " by ID"
  | .DELETE => str "Delete " ++ resource ++ str " by ID"

/-- `ToolGenerator.generateInstruction` (tool-generator.ts lines 164-184). -/
def generateInstruction (endpoint : Str) (method : HttpMethod) : Str :=
  let resource := extractResourceName endpoint
  match method with
  | .GET =>
    if containsSub (str ":id") endpoint then
      str "Use this tool when the user asks about a specific " ++ resource ++
        str ". Requires the ID."
    else
      str "Use this tool when the user asks to see all " ++ resource ++
        str " or list " ++ resource ++ str "."
  | .POST =>
    str "Use this tool when the user wants to create or add a new " ++
      resource ++ str "."
  | .PUT =>
    str "Use this tool when the user wants to update or modify a " ++
      resource ++ str "."
  | .PATCH =>
    str "Use this tool when the user wants to make partial updates to a " ++
      resource ++ str "."
  | .DELETE =>
    str "⚠️ Destructive operation. Only use when user explicitly requests deletion of a " ++
      resource ++ str "."

/-- `ToolGenerator.shouldEnableByDefault` (tool-generator.ts lines 213-220). -/
def shouldEnableByDefault (method : HttpMethod) : Bool :=
  if method = .DELETE then false else true

/-- `param.description || 'The name parameter'`: the JS `||` also replaces
an empty-string description. -/
def descOrDefault (d : Option Str) (deflt : Str) : Str :=
  match d with
  | some s => if s.isEmpty then deflt else s
  | none => deflt

/-- The path-parameter loop of `generateTool`. -/
def addParams (acc : List (Str × ParamProp) × List Str) (params : List ParamInfo)
    (defaultSuffix : Str) : List (Str × ParamProp) × List Str :=
  params.foldl (fun acc param =>
    (upsert acc.1 param.name
      { type := param.type
        description := descOrDefault param.description
          (str "The " ++ param.name ++ defaultSuffix) },
     if param.required then acc.2 ++ [param.name] else acc.2)) acc

/-- `ToolGenerator.generateTool` (tool-generator.ts lines 40-102). -/
def generateTool (route : RouteInfo) (method : MethodInfo) : Tool :=
  let toolName := generateToolName method.endpoint method.method
  let description := generateDescription method.endpoint method.method
  let instruction := generateInstruction method.endpoint method.method
  let acc1 := addParams ([], []) method.params (str " parameter")
  let acc2 :=
    if method.method = .POST || method.method = .PUT || method.method = .PATCH then
      addParams acc1 method.bodyParams (str " field")
    else acc1
  let enabled := shouldEnableByDefault method.method
  let issues :=
    (if method.method = .DELETE then [str "destructive_operation"] else []) ++
    (if !method.hasAuth &&
        (method.method = .POST || method.method = .PUT ||
         method.method = .DELETE || method.method = .PATCH) then
      [str "no_authentication_detected"]
    else [])
  { id := toolName
    name := toolName
    description := description
    instruction := instruction
    source := route.relativePath
    enabled := enabled
    method := method.method
    endpoint := method.endpoint
    parameters := { type := str "object", properties := acc2.1, required := acc2.2 }
    fixed_params := none
    auth := if method.hasAuth then some (str "required") else none
    issues := some issues }

end ToolGenerator

/-! ### `ToolFixer` (src/cli/fixer/tool-fixer.ts) -/

namespace ToolFixer

/-- `FixResult` from the fixer. -/
structure FixResult where
  tool : Tool
  fixed : Bool
  fixes : List Str
deriving DecidableEq, Repr

/-- `ToolFixer.extractResourceName` (fix.ts lines 788-807): unlike the
generator's version this also skips segments starting with a brace. -/
def extractResourceName (endpoint : Str) : Str :=
  let name := ToolGenerator.dropApi endpoint
  let segments := (splitChar '/' name).filter
    (fun s => !s.isEmpty && !([':'].isPrefixOf s) && !([braceL].isPrefixOf s))
  match segments.getLast? with
  | none => str "resource"
  | some resourceName =>
    if ['s'].isSuffixOf resourceName && decide (2 < resourceName.length) then
      resourceName.dropLast
    else resourceName

/-- `ToolFixer.generateDescription` (fix.ts lines 583-604); the `default`
arm is unreachable over the closed verb union. -/
def generateDescription (tool : Tool) : Str :=
  let resource := extractResourceName tool.endpoint
  match tool.method with
  | .GET =>
    if containsSub (str ":id") tool.endpoint ||
       containsSub (str "\x7bid\x7d") tool.endpoint then
      str "Retrieve " ++ resource ++ str " by ID"
    else str "List all " ++ resource
  | .POST => str "Create a new " ++ resource
  | .PUT => str "Update " ++ resource ++ str " by ID"
  | .PATCH => str "Partially update " ++ resource ++ str " by ID"
  | .DELETE => str "Delete " ++ resource ++ str " by ID"

/-- `ToolFixer.generateInstruction` (fix.ts lines 609-630). -/
def generateInstruction (tool : Tool) : Str :=
  let resource := extractResourceName tool.endpoint
  match tool.method with
  | .GET =>
    if containsSub (str ":id") tool.endpoint then
      str "Use this tool when the user asks about a specific " ++ resource ++
        str ". Requires the ID parameter."
    else
      str "Use this tool when the user asks to see all " ++ resource ++
        str " or list " ++ resource ++ str "."
  | .POST =>
    str "Use this tool when the user wants to create or add a new " ++
      resource ++ str "."
  | .PUT =>
    str "Use this tool when the user wants to completely update a " ++
      resource ++ str "."
  | .PATCH =>
    str "Use this tool when the user wants to make partial updates to a " ++
      resource ++ str "."
  | .DELETE =>
    str "⚠️ Destructive operation. Only use when user explicitly requests deletion of a " ++
      resource ++ str ". Confirm before executing."

/-- `name.replace(/_id|Id$/, '')`: remove the leftmost match, where the
pattern is `_id` anywhere or `Id` exactly at the end. -/
def removeIdToken : Str → Str
  | [] => []
  | l@(c :: rest) =>
    if (str "_id").isPrefixOf l then l.drop 3
    else if l = str "Id" then []
    else c :: removeIdToken rest

/-- `str.charAt(0).toUpperCase() + str.slice(1)`. -/
def capitalize (s : Str) : Str :=
  match s with
  | [] => []
  | c :: rest => c.toUpper :: rest

/-- `ToolFixer.generateParameterDescription` (fix.ts lines 668-724). -/
def generateParameterDescription (name ty : Str) (tool : Tool) : Str :=
  if name = str "id" then
    str "Unique identifier for the " ++ extractResourceName tool.endpoint
  else if (str "_id").isSuffixOf name || (str "Id").isSuffixOf name then
    str "Unique identifier for the " ++ removeIdToken name
  else if name = str "email" then str "Email address"
  else if name = str "password" then str "Password (minimum 8 characters)"
  else if name = str "name" then str "Name"
  else if name = str "description" then str "Description or additional details"
  else if name = str "status" then str "Current status"
  else if name = str "created_at" || name = str "createdAt" then
    str "Creation timestamp"
  else if name = str "updated_at" || name = str "updatedAt" then
    str "Last update timestamp"
  else if ty = str "string" then capitalize name ++ str " (string)"
  else if ty = str "number" || ty = str "integer" then
    capitalize name ++ str " (numeric value)"
  else if ty = str "boolean" then capitalize name ++ str " (true/false)"
  else if ty = str "array" then str "Array of " ++ name
  else if ty = str "object" then capitalize name ++ str " object"
  else capitalize (name.map (fun c => if c = '_' || c = '-' then ' ' else c))

/-- The per-property repair condition of `fixParameterDescriptions`. -/
def needsParamFix (name : Str) (prop : ParamProp) : Bool :=
  isBlank prop.description ||
    decide (prop.description = str "The " ++ name ++ str " parameter")

/-- `ToolFixer.fixParameterDescriptions` (fix.ts lines 635-663): returns the
(possibly) updated tool and the number of repaired descriptions. -/
def fixParameterDescriptions (tool : Tool) : Tool × Nat :=
  let step := tool.parameters.properties.map (fun p =>
    if needsParamFix p.1 p.2 then
      ((p.1, { p.2 with
        description := generateParameterDescription p.1 p.2.type tool }), 1)
    else (p, (0 : Nat)))
  let count := (step.map Prod.snd).sum
  let props := step.map Prod.fst
  if 0 < count then
    ({ tool with parameters := { tool.parameters with properties := props } },
     count)
  else (tool, count)

/-- `ToolFixer.hasNamingIssues` (fix.ts lines 729-740). -/
def hasNamingIssues (name : Str) : Bool :=
  containsSub (str "__") name ||
    ['_'].isPrefixOf name || ['_'].isSuffixOf name ||
    decide (name ≠ toLowerStr name)

/-- `ToolFixer.fixNaming` (fix.ts lines 745-756). -/
def fixNaming (name : Str) : Str :=
  trimUnderscores (collapseUnderscores (toLowerStr name))

/-- `ToolFixer.filterUnresolvedIssues` (fix.ts lines 761-783). -/
def filterUnresolvedIssues (tool : Tool) : List Str :=
  match tool.issues with
  | none => []
  | some issues =>
    let descResolved := !isBlank tool.description
    let paramsResolved :=
      tool.parameters.properties.all (fun p => !isBlank p.2.description)
    issues.filter (fun issue =>
      !((descResolved && decide (issue = str "missing_description")) ||
        (paramsResolved &&
          decide (issue = str "missing_parameter_descriptions"))))

/-- `fixTool` stage 1 (fix.ts lines 538-542): fix a missing description.
The pair carries the running `(fixedTool, fixes)` state of `fixTool`. -/
def step1 (tool : Tool) : Tool × List Str :=
  if isBlank tool.description then
    ({ tool with description := generateDescription tool },
     [str "Added missing description"])
  else (tool, [])

/-- `fixTool` stage 2 (fix.ts lines 544-548): fix a missing instruction. -/
def step2 (q : Tool × List Str) : Tool × List Str :=
  if isBlank q.1.instruction then
    ({ q.1 with instruction := generateInstruction q.1 },
     q.2 ++ [str "Added missing instruction"])
  else (q.1, q.2)

/-- `fixTool` stage 3 (fix.ts lines 550-555): fix parameter descriptions. -/
def step3 (q : Tool × List Str) : Tool × List Str :=
  let pf := fixParameterDescriptions q.1
  if 0 < pf.2 then
    (pf.1, q.2 ++ [str "Fixed " ++ Nat.toDigits 10 pf.2 ++
      str " parameter descriptions"])
  else (q.1, q.2)

/-- `fixTool` stage 4 (fix.ts lines 557-563): fix naming conventions,
propagating the new name to the id field. -/
def step4 (q : Tool × List Str) : Tool × List Str :=
  if hasNamingIssues q.1.name then
    ({ q.1 with name := fixNaming q.1.name, id := fixNaming q.1.name },
     q.2 ++ [str "Fixed naming: " ++ q.1.name ++ str " → " ++
       fixNaming q.1.name])
  else (q.1, q.2)

/-- `fixTool` stage 5 (fix.ts lines 565-568): deduplicate the issues list
(`[...new Set(issues)]`, skipped when `issues` is undefined). -/
def step5 (t4 : Tool) : Tool :=
  match t4.issues with
  | none => t4
  | some issues => { t4 with issues := some (dedupeFirst issues) }

/-- `fixTool` stage 6 (fix.ts line 571): clear resolved issues. -/
def step6 (t5 : Tool) : Tool :=
  { t5 with issues := some (filterUnresolvedIssues t5) }

/-- `ToolFixer.fixTool` (fix.ts lines 534-578), as the composition of its
six statement blocks. -/
def fixTool (tool : Tool) : FixResult :=
  let p4 := step4 (step3 (step2 (step1 tool)))
  { tool := step6 (step5 p4.1), fixed := !p4.2.isEmpty, fixes := p4.2 }

/-- `ToolFixer.fixAll` (fix.ts lines 527-529). -/
def fixAll (tools : List Tool) : List FixResult :=
  tools.map fixTool

end ToolFixer

/-! ### Proof-support definitions

`bracketFree` and `issuePred` phrase side conditions used in the
statements below. -/

/-- Neither bracket character occurs in `l`. -/
def bracketFree (l : Str) : Bool := l.all (fun c => c ≠ '[' && c ≠ ']')

/-- The predicate `filterUnresolvedIssues` keeps an issue under: the issue
is retained unless it is a resolved `missing_description` or
`missing_parameter_descriptions` marker. -/
def issuePred (tool : Tool) (issue : Str) : Bool :=
  !(((!isBlank tool.description) && decide (issue = str "missing_description")) ||
    ((tool.parameters.properties.all (fun p => !isBlank p.2.description)) &&
      decide (issue = str "missing_parameter_descriptions")))

/-! ### Concrete tools used in the claim instances below -/

/-- A GET tool whose single parameter is named `_` with the unrecognized
type `x`: the fixer's regenerated description for that parameter is the
single space character, which is blank, so the repair fires again on every
rerun. -/
def c5tool : Tool :=
  { id := str "get_x", name := str "get_x", description := str "d",
    instruction := str "i", source := str "src/app/api/x/route.ts",
    enabled := true, method := .GET, endpoint := str "/api/x",
    parameters :=
      { type := str "object",
        properties := [(str "_", { type := str "x", description := [] })],
        required := [] },
    fixed_params := none, auth := none, issues := none }

/-- A GET tool with a conventional `id` parameter; its regenerated
parameter description is non-blank. -/
def c5wit : Tool :=
  { id := str "get_x", name := str "get_x", description := [],
    instruction := str "i", source := str "src/app/api/x/route.ts",
    enabled := true, method := .GET, endpoint := str "/api/x",
    parameters :=
      { type := str "object",
        properties := [(str "id",
          { type := str "string", description := [] })],
        required := [str "id"] },
    fixed_params := none, auth := none, issues := none }

/-- A description-less GET tool over a dynamic `:id` endpoint. -/
def c6get : Tool :=
  { id := str "get_users_id", name := str "get_users_id", description := [],
    instruction := str "i", source := str "src/app/api/users/[id]/route.ts",
    enabled := true, method := .GET, endpoint := str "/api/users/:id",
    parameters := { type := str "object", properties := [], required := [] },
    fixed_params := none, auth := none, issues := none }

/-- A description-less POST tool over a static endpoint. -/
def c6post : Tool :=
  { id := str "post_users", name := str "post_users", description := [],
    instruction := str "i", source := str "src/app/api/users/route.ts",
    enabled := true, method := .POST, endpoint := str "/api/users",
    parameters := { type := str "object", properties := [], required := [] },
    fixed_params := none, auth := none, issues := none }

/-- A DELETE tool carrying the two behavioural issue markers. -/
def c8wit : Tool :=
  { id := str "delete_users_id", name := str "delete_users_id",
    description := str "d", instruction := str "i",
    source := str "src/app/api/users/[id]/route.ts",
    enabled := false, method := .DELETE, endpoint := str "/api/users/:id",
    parameters := { type := str "object", properties := [], required := [] },
    fixed_params := none, auth := none,
    issues := some [str "destructive_operation",
      str "no_authentication_detected"] }

/-- A tool whose id and name differ while nothing triggers the naming fix. -/
def c9tool : Tool :=
  { id := str "a", name := str "b", description := str "d",
    instruction := str "i", source := str "src/app/api/b/route.ts",
    enabled := true, method := .GET, endpoint := str "/api/b",
    parameters := { type := str "object", properties := [], required := [] },
    fixed_params := none, auth := none, issues := none }

/-- A tool that already satisfies id = name. -/
def c9wit : Tool :=
  { id := str "a", name := str "a", description := str "d",
    instruction := str "i", source := str "src/app/api/a/route.ts",
    enabled := true, method := .GET, endpoint := str "/api/a",
    parameters := { type := str "object", properties := [], required := [] },
    fixed_params := none, auth := none, issues := none }

/-! ### General string lemmas -/

theorem charOfNat_toNat {n : Nat} (h1 : 65 ≤ n) (h2 : n ≤ 90) :
    (Char.ofNat (n + 32)).toNat = n + 32 := by
  have hv : (n + 32).isValidChar := by
    left
    omega
  simp only [Char.ofNat, hv, dif_pos, Char.ofNatAux, Char.toNat, UInt32.toNat]
  simp

theorem charToLower_idem (c : Char) : Char.toLower (Char.toLower c) = Char.toLower c := by
  by_cases h : c.toNat ≥ 65 ∧ c.toNat ≤ 90
  · have h1 : Char.toLower c = Char.ofNat (c.toNat + 32) := by
      unfold Char.toLower
      simp [h]
    have h2 : (Char.ofNat (c.toNat + 32)).toNat = c.toNat + 32 :=
      charOfNat_toNat h.1 h.2
    rw [h1]
    conv_lhs => unfold Char.toLower
    simp only [h2]
    rw [if_neg (by omega)]
  · unfold Char.toLower
    simp [h]

theorem toLowerStr_eq_self_iff {s : Str} :
    toLowerStr s = s ↔ ∀ c ∈ s, Char.toLower c = c := by
  unfold toLowerStr
  induction s with
  | nil => simp
  | cons c rest ih =>
    simp only [List.map_cons, List.cons.injEq, List.mem_cons]
    constructor
    · rintro ⟨h1, h2⟩ x hx
      rcases hx with rfl | hx
      · exact h1
      · exact ih.mp h2 x hx
    · intro h
      exact ⟨h c (Or.inl rfl), ih.mpr (fun x hx => h x (Or.inr hx))⟩

theorem containsSub_cons {p rest : Str} (c : Char)
    (h : containsSub p rest = true) : containsSub p (c :: rest) = true := by
  simp [containsSub, h]

theorem containsSub_append_right {p v : Str} (u : Str)
    (h : containsSub p v = true) : containsSub p (u ++ v) = true := by
  induction u with
  | nil => exact h
  | cons c u ih => exact containsSub_cons c ih

theorem isPrefixOf_self_append (p v : Str) : p.isPrefixOf (p ++ v) = true :=
  List.isPrefixOf_iff_prefix.mpr (List.prefix_append p v)

theorem containsSub_here (p v : Str) : containsSub p (p ++ v) = true := by
  cases hp : p ++ v with
  | nil =>
    have : p = [] := by
      cases p with
      | nil => rfl
      | cons c t => simp at hp
    subst this
    simp [containsSub, List.isPrefixOf]
  | cons c t =>
    rw [show containsSub p (c :: t) = (p.isPrefixOf (c :: t) || containsSub p t)
      from rfl, ← hp, isPrefixOf_self_append]
    simp

theorem containsSub_mid (p u v : Str) : containsSub p (u ++ p ++ v) = true := by
  rw [List.append_assoc]
  exact containsSub_append_right u (containsSub_here p v)

theorem containsSub_drop {q l : Str} {k : Nat}
    (h : containsSub q (l.drop k) = true) : containsSub q l = true := by
  have := containsSub_append_right (l.take k) h
  rwa [List.take_append_drop] at this

theorem afterFirst_spec (p v : Str) :
    ∀ u : Str, ∃ r k, afterFirst p (u ++ (p ++ v)) = some r ∧ r.drop k = v := by
  intro u
  induction u with
  | nil =>
    simp only [List.nil_append]
    cases hl : p ++ v with
    | nil =>
      have hp : p = [] := by cases p with
        | nil => rfl
        | cons c t => simp at hl
      have hv : v = [] := by
        subst hp
        simpa using hl
      subst hp hv
      exact ⟨[], 0, by simp [afterFirst, List.isPrefixOf], rfl⟩
    | cons c t =>
      refine ⟨v, 0, ?_, rfl⟩
      rw [show afterFirst p (c :: t) =
        (if p.isPrefixOf (c :: t) then some ((c :: t).drop p.length)
         else afterFirst p t) from rfl, ← hl, isPrefixOf_self_append]
      simp [List.drop_left]
  | cons c u ih =>
    simp only [List.cons_append]
    obtain ⟨r, k, hr, hk⟩ := ih
    by_cases hpre : p.isPrefixOf (c :: (u ++ (p ++ v))) = true
    · refine ⟨(c :: (u ++ (p ++ v))).drop p.length, u.length + 1, ?_, ?_⟩
      · simp [afterFirst, hpre]
      · rw [List.drop_drop]
        have harith : p.length + (u.length + 1) = (u.length + p.length) + 1 := by omega
        rw [harith, List.drop_succ_cons, ← List.append_assoc, show u.length + p.length
          = (u ++ p).length by simp, List.drop_left]
    · refine ⟨r, k, ?_, hk⟩
      rw [show afterFirst p (c :: (u ++ (p ++ v))) =
        (if p.isPrefixOf (c :: (u ++ (p ++ v))) then
          some ((c :: (u ++ (p ++ v))).drop p.length)
         else afterFirst p (u ++ (p ++ v))) from rfl, if_neg (by simp [hpre]), hr]

theorem containsInOrder_intro {p q v l : Str} (u : Str)
    (hl : l = u ++ (p ++ v)) (hq : containsSub q v = true) :
    containsInOrder p q l = true := by
  subst hl
  obtain ⟨r, k, hr, hk⟩ := afterFirst_spec p v u
  unfold containsInOrder
  rw [hr]
  exact containsSub_drop (k := k) (hk ▸ hq)

theorem containsSub_nil_pat (w : Str) : containsSub [] w = true := by
  cases w <;> simp [containsSub, List.isPrefixOf]

theorem isPrefixOf_extend {p u : Str} (w : Str)
    (h : p.isPrefixOf u = true) : p.isPrefixOf (u ++ w) = true :=
  List.isPrefixOf_iff_prefix.mpr
    ((List.isPrefixOf_iff_prefix.mp h).trans (List.prefix_append u w))

theorem containsSub_append_left {p u : Str} (w : Str)
    (h : containsSub p u = true) : containsSub p (u ++ w) = true := by
  induction u with
  | nil =>
    have hp : p = [] := by
      cases p with
      | nil => rfl
      | cons c t => simp [containsSub, List.isPrefixOf] at h
    subst hp
    exact containsSub_nil_pat w
  | cons c u ih =>
    simp only [containsSub, Bool.or_eq_true] at h
    rcases h with h | h
    · rw [List.cons_append]
      simp only [containsSub, Bool.or_eq_true]
      exact Or.inl (isPrefixOf_extend w h)
    · exact containsSub_cons c (ih h)

theorem containsSub_of_isPrefix {p u l : Str} (hu : u <+: l)
    (h : containsSub p u = true) : containsSub p l = true := by
  obtain ⟨w, rfl⟩ := hu
  exact containsSub_append_left w h

theorem containsSub_of_isSuffix {p u l : Str} (hu : u <:+ l)
    (h : containsSub p u = true) : containsSub p l = true := by
  obtain ⟨w, rfl⟩ := hu
  exact containsSub_append_right w h

/-! ### Blankness -/

theorem trimStr_eq_nil_iff {s : Str} :
    trimStr s = [] ↔ ∀ c ∈ s, Char.isWhitespace c = true := by
  unfold trimStr
  constructor
  · intro h c hc
    have h2 : (s.dropWhile Char.isWhitespace).reverse.dropWhile Char.isWhitespace
        = [] := by
      rwa [List.reverse_eq_nil_iff] at h
    have h3 : ∀ x ∈ (s.dropWhile Char.isWhitespace).reverse,
        Char.isWhitespace x = true := List.dropWhile_eq_nil_iff.mp h2
    have h4 : ∀ x ∈ s.dropWhile Char.isWhitespace,
        Char.isWhitespace x = true := by
      intro x hx
      exact h3 x (List.mem_reverse.mpr hx)
    rcases List.mem_append.mp
        (by rw [List.takeWhile_append_dropWhile (p := Char.isWhitespace)]; exact hc :
          c ∈ s.takeWhile Char.isWhitespace ++ s.dropWhile Char.isWhitespace) with
      hmem | hmem
    · exact List.mem_takeWhile_imp hmem
    · exact h4 c hmem
  · intro h
    rw [List.dropWhile_eq_nil_iff.mpr h]
    simp

theorem isBlank_eq_false_iff {s : Str} :
    isBlank s = false ↔ ∃ c ∈ s, Char.isWhitespace c = false := by
  unfold isBlank
  rw [show ((trimStr s).isEmpty = false) ↔ ¬ (trimStr s = []) by
        rw [← List.isEmpty_iff]
        simp, trimStr_eq_nil_iff]
  push_neg
  constructor
  · rintro ⟨c, hc, hne⟩
    exact ⟨c, hc, by simpa using hne⟩
  · rintro ⟨c, hc, hne⟩
    exact ⟨c, hc, by simp [hne]⟩

theorem isBlank_append_false {u : Str} (v : Str)
    (h : isBlank u = false) : isBlank (u ++ v) = false := by
  obtain ⟨c, hc, hw⟩ := isBlank_eq_false_iff.mp h
  exact isBlank_eq_false_iff.mpr ⟨c, List.mem_append_left v hc, hw⟩

/-! ### `getLast?` and single-character suffixes -/

theorem isSuffixOf_singleton_iff {c : Char} {l : Str} :
    [c].isSuffixOf l = true ↔ l.getLast? = some c := by
  rw [show [c].isSuffixOf l = [c].isPrefixOf l.reverse from rfl,
    List.getLast?_eq_head?_reverse]
  cases hrev : l.reverse with
  | nil => simp [List.isPrefixOf]
  | cons x xs =>
    simp [List.isPrefixOf]
    constructor
    · intro h
      simp [h]
    · intro h
      simp [h.symm]

theorem getLast?_append_right {u v : Str} (hv : v ≠ []) :
    (u ++ v).getLast? = v.getLast? := by
  rw [List.getLast?_append]
  obtain ⟨a, ha⟩ := Option.isSome_iff_exists.mp (List.getLast?_isSome.mpr hv)
  simp [ha]

theorem getLast?_cons_of_ne_nil {c : Char} {l : Str} (h : l ≠ []) :
    (c :: l).getLast? = l.getLast? := by
  cases l with
  | nil => exact absurd rfl h
  | cons x xs => exact List.getLast?_cons_cons

/-! ### `collapseUnderscores` -/

theorem dropWhile_head_not {p : Char → Bool} {l : Str} {c : Char} {t : Str}
    (h : l.dropWhile p = c :: t) : p c = false := by
  induction l with
  | nil => simp at h
  | cons x xs ih =>
    rw [List.dropWhile_cons] at h
    by_cases hx : p x = true
    · exact ih (by rwa [if_pos hx] at h)
    · rw [if_neg hx] at h
      cases h
      simpa using hx

theorem collapse_eq_nil_iff : ∀ {l : Str}, collapseUnderscores l = [] ↔ l = [] := by
  intro l
  induction l using collapseUnderscores.induct with
  | case1 => simp [collapseUnderscores]
  | case2 c => simp [collapseUnderscores]
  | case3 c₁ c₂ rest huu ih =>
    rw [show collapseUnderscores (c₁ :: c₂ :: rest)
      = collapseUnderscores (c₂ :: rest) by simp [collapseUnderscores, huu]]
    simp [ih]
  | case4 c₁ c₂ rest huu ih =>
    rw [show collapseUnderscores (c₁ :: c₂ :: rest)
      = c₁ :: collapseUnderscores (c₂ :: rest) by
        simp [collapseUnderscores, huu]]
    simp

theorem collapse_cons_shape : ∀ (c : Char) (l : Str),
    ∃ w, collapseUnderscores (c :: l) = c :: w := by
  intro c l
  induction l generalizing c with
  | nil => exact ⟨[], rfl⟩
  | cons c₂ rest ih =>
    by_cases huu : c = '_' && c₂ = '_'
    · obtain ⟨w, hw⟩ := ih c₂
      have hc : c = c₂ := by
        simp only [Bool.and_eq_true, decide_eq_true_eq] at huu
        rw [huu.1, huu.2]
      refine ⟨w, ?_⟩
      rw [show collapseUnderscores (c :: c₂ :: rest)
        = collapseUnderscores (c₂ :: rest) by simp [collapseUnderscores, huu],
        hw, hc]
    · exact ⟨collapseUnderscores (c₂ :: rest), by
        simp [collapseUnderscores, huu]⟩

theorem collapse_noUU : ∀ (l : Str),
    containsSub (str "__") (collapseUnderscores l) = false := by
  intro l
  induction l using collapseUnderscores.induct with
  | case1 => decide
  | case2 c =>
    show containsSub ['_', '_'] [c] = false
    simp [containsSub, List.isPrefixOf]
  | case3 c₁ c₂ rest huu ih =>
    rw [show collapseUnderscores (c₁ :: c₂ :: rest)
      = collapseUnderscores (c₂ :: rest) by simp [collapseUnderscores, huu]]
    exact ih
  | case4 c₁ c₂ rest huu ih =>
    rw [show collapseUnderscores (c₁ :: c₂ :: rest)
      = c₁ :: collapseUnderscores (c₂ :: rest) by
        simp [collapseUnderscores, huu]]
    rw [show containsSub (str "__") (c₁ :: collapseUnderscores (c₂ :: rest)) =
      ((str "__").isPrefixOf (c₁ :: collapseUnderscores (c₂ :: rest)) ||
        containsSub (str "__") (collapseUnderscores (c₂ :: rest))) from rfl, ih]
    simp only [Bool.or_false]
    obtain ⟨w, hw⟩ := collapse_cons_shape c₂ rest
    rw [hw]
    rw [show str "__" = ['_', '_'] from rfl]
    simp only [List.isPrefixOf, Bool.and_eq_false_iff]
    simp only [Bool.and_eq_true, decide_eq_true_eq, not_and] at huu
    by_cases hc₁ : c₁ = '_'
    · refine Or.inr (Or.inl ?_)
      have hc₂ : ¬ c₂ = '_' := huu hc₁
      simpa [BEq.beq] using fun h => hc₂ h.symm
    · refine Or.inl ?_
      simpa [BEq.beq] using fun h => hc₁ h.symm

theorem collapse_getLast? : ∀ {l : Str}, l ≠ [] →
    (collapseUnderscores l).getLast? = l.getLast? := by
  intro l
  induction l using collapseUnderscores.induct with
  | case1 => intro h; exact absurd rfl h
  | case2 c => intro _; rfl
  | case3 c₁ c₂ rest huu ih =>
    intro _
    rw [show collapseUnderscores (c₁ :: c₂ :: rest)
      = collapseUnderscores (c₂ :: rest) by simp [collapseUnderscores, huu],
      ih (by simp), List.getLast?_cons_cons]
  | case4 c₁ c₂ rest huu ih =>
    intro _
    rw [show collapseUnderscores (c₁ :: c₂ :: rest)
      = c₁ :: collapseUnderscores (c₂ :: rest) by
        simp [collapseUnderscores, huu]]
    have hne : collapseUnderscores (c₂ :: rest) ≠ [] := by
      simp [collapse_eq_nil_iff]
    rw [getLast?_cons_of_ne_nil hne, ih (by simp), List.getLast?_cons_cons]

theorem mem_collapse {c : Char} : ∀ {l : Str},
    c ∈ collapseUnderscores l → c ∈ l := by
  intro l
  induction l using collapseUnderscores.induct with
  | case1 => simp [collapseUnderscores]
  | case2 x => simp [collapseUnderscores]
  | case3 c₁ c₂ rest huu ih =>
    intro h
    rw [show collapseUnderscores (c₁ :: c₂ :: rest)
      = collapseUnderscores (c₂ :: rest) by simp [collapseUnderscores, huu]] at h
    exact List.mem_cons.mpr (Or.inr (ih h))
  | case4 c₁ c₂ rest huu ih =>
    intro h
    rw [show collapseUnderscores (c₁ :: c₂ :: rest)
      = c₁ :: collapseUnderscores (c₂ :: rest) by
        simp [collapseUnderscores, huu]] at h
    rcases List.mem_cons.mp h with h | h
    · simp [h]
    · exact List.mem_cons.mpr (Or.inr (ih h))

/-! ### Deduplication -/

theorem mem_dedupeAux {x : Str} : ∀ {seen l : List Str},
    x ∈ dedupeAux seen l ↔ x ∈ l ∧ x ∉ seen := by
  intro seen l
  induction l generalizing seen with
  | nil => simp [dedupeAux]
  | cons y rest ih =>
    by_cases hy : y ∈ seen
    · rw [show dedupeAux seen (y :: rest) = dedupeAux seen rest by
        simp [dedupeAux, hy]]
      rw [ih]
      constructor
      · rintro ⟨h1, h2⟩
        exact ⟨by simp [h1], h2⟩
      · rintro ⟨h1, h2⟩
        rcases List.mem_cons.mp h1 with rfl | h1
        · exact absurd hy h2
        · exact ⟨h1, h2⟩
    · rw [show dedupeAux seen (y :: rest) = y :: dedupeAux (y :: seen) rest by
        simp [dedupeAux, hy]]
      constructor
      · intro h
        rcases List.mem_cons.mp h with rfl | h
        · exact ⟨by simp, hy⟩
        · obtain ⟨h1, h2⟩ := ih.mp h
          refine ⟨by simp [h1], fun hs => h2 (by simp [hs])⟩
      · rintro ⟨h1, h2⟩
        rcases List.mem_cons.mp h1 with rfl | h1
        · simp
        · by_cases hxy : x = y
          · simp [hxy]
          · exact List.mem_cons.mpr (Or.inr (ih.mpr ⟨h1, by
              simp only [List.mem_cons]
              rintro (h | h)
              · exact hxy h
              · exact h2 h⟩))

theorem nodup_dedupeAux : ∀ {seen l : List Str}, (dedupeAux seen l).Nodup := by
  intro seen l
  induction l generalizing seen with
  | nil => simp [dedupeAux]
  | cons y rest ih =>
    by_cases hy : y ∈ seen
    · rw [show dedupeAux seen (y :: rest) = dedupeAux seen rest by
        simp [dedupeAux, hy]]
      exact ih
    · rw [show dedupeAux seen (y :: rest) = y :: dedupeAux (y :: seen) rest by
        simp [dedupeAux, hy]]
      rw [List.nodup_cons]
      refine ⟨fun hmem => ?_, ih⟩
      have := (mem_dedupeAux.mp hmem).2
      simp at this

theorem dedupeAux_eq_self : ∀ {l seen : List Str}, l.Nodup →
    (∀ x ∈ l, x ∉ seen) → dedupeAux seen l = l := by
  intro l
  induction l with
  | nil => intro seen _ _; rfl
  | cons y rest ih =>
    intro seen hnd hdisj
    have hy : y ∉ seen := hdisj y (by simp)
    rw [show dedupeAux seen (y :: rest) = y :: dedupeAux (y :: seen) rest by
      simp [dedupeAux, hy]]
    have hnd' := (List.nodup_cons.mp hnd)
    congr 1
    refine ih hnd'.2 (fun x hx => ?_)
    simp only [List.mem_cons]
    rintro (rfl | hmem)
    · exact hnd'.1 hx
    · exact hdisj x (by simp [hx]) hmem

theorem mem_dedupeFirst {x : Str} {l : List Str} :
    x ∈ dedupeFirst l ↔ x ∈ l := by
  unfold dedupeFirst
  rw [mem_dedupeAux]
  simp

theorem nodup_dedupeFirst {l : List Str} : (dedupeFirst l).Nodup :=
  nodup_dedupeAux

theorem dedupeFirst_of_nodup {l : List Str} (h : l.Nodup) : dedupeFirst l = l :=
  dedupeAux_eq_self h (by simp)

theorem filter_self_idem {p : Str → Bool} {l : List Str} :
    (l.filter p).filter p = l.filter p := by
  rw [List.filter_filter]
  simp

/-! ### `fixNaming` -/

theorem fixNaming_parts (s : Str) :
    ToolFixer.fixNaming s <+:
      (collapseUnderscores (toLowerStr s)).dropWhile (· = '_') ∧
    (collapseUnderscores (toLowerStr s)).dropWhile (· = '_') <:+
      collapseUnderscores (toLowerStr s) := by
  constructor
  · unfold ToolFixer.fixNaming trimUnderscores
    rw [← List.reverse_suffix]
    simp only [List.reverse_reverse]
    exact List.dropWhile_suffix _
  · exact List.dropWhile_suffix _

theorem fixNaming_no_doubleU (s : Str) :
    containsSub (str "__") (ToolFixer.fixNaming s) = false := by
  by_contra hcon
  have h1 : containsSub (str "__") (ToolFixer.fixNaming s) = true := by
    simpa using hcon
  obtain ⟨hpre, hsuf⟩ := fixNaming_parts s
  have h2 := containsSub_of_isSuffix hsuf (containsSub_of_isPrefix hpre h1)
  rw [collapse_noUU] at h2
  exact Bool.false_ne_true h2

theorem fixNaming_no_leadU (s : Str) :
    ['_'].isPrefixOf (ToolFixer.fixNaming s) = false := by
  cases hT : ToolFixer.fixNaming s with
  | nil => simp [List.isPrefixOf]
  | cons c t =>
    simp [List.isPrefixOf]
    intro hc
    subst hc
    obtain ⟨hpre, _⟩ := fixNaming_parts s
    rw [hT] at hpre
    obtain ⟨w, hw⟩ := hpre
    have hdw : (collapseUnderscores (toLowerStr s)).dropWhile (· = '_')
        = '_' :: (t ++ w) := by
      rw [← hw]
      simp
    have := dropWhile_head_not hdw
    simp at this

theorem fixNaming_no_trailU (s : Str) :
    ['_'].isSuffixOf (ToolFixer.fixNaming s) = false := by
  unfold ToolFixer.fixNaming trimUnderscores
  rw [show ∀ l : Str, ['_'].isSuffixOf l = ['_'].isPrefixOf l.reverse
    from fun _ => rfl]
  simp only [List.reverse_reverse]
  cases hd : ((collapseUnderscores (toLowerStr s)).dropWhile
      (· = '_')).reverse.dropWhile (· = '_') with
  | nil => simp [List.isPrefixOf]
  | cons c t =>
    have hc : c ≠ '_' := by
      have := dropWhile_head_not hd
      simpa using this
    simp [List.isPrefixOf]
    intro h
    exact absurd h.symm hc

theorem fixNaming_lowercase (s : Str) :
    toLowerStr (ToolFixer.fixNaming s) = ToolFixer.fixNaming s := by
  rw [toLowerStr_eq_self_iff]
  intro c hc
  obtain ⟨hpre, hsuf⟩ := fixNaming_parts s
  have hmem : c ∈ collapseUnderscores (toLowerStr s) :=
    hsuf.subset (hpre.subset hc)
  have hmem2 : c ∈ toLowerStr s := mem_collapse hmem
  obtain ⟨d, _, rfl⟩ := List.mem_map.mp hmem2
  exact charToLower_idem d

theorem fixNaming_ok (s : Str) :
    ToolFixer.hasNamingIssues (ToolFixer.fixNaming s) = false := by
  unfold ToolFixer.hasNamingIssues
  rw [fixNaming_no_doubleU, fixNaming_no_leadU, fixNaming_no_trailU]
  simp [fixNaming_lowercase s]

/-! ### Support for the tool-name invariants -/

theorem noAdjPair_tail {bad : Char → Bool} {c : Char} {l : Str}
    (h : noAdjPair bad (c :: l) = true) : noAdjPair bad l = true := by
  cases l with
  | nil => rfl
  | cons c₂ rest =>
    simp only [noAdjPair, Bool.and_eq_true] at h
    exact h.2

theorem noAdjPair_dropApi {bad : Char → Bool} {l : Str}
    (h : noAdjPair bad l = true) :
    noAdjPair bad (ToolGenerator.dropApi l) = true := by
  unfold ToolGenerator.dropApi
  split
  · next rest =>
    exact noAdjPair_tail (noAdjPair_tail (noAdjPair_tail (noAdjPair_tail h)))
  · exact h

theorem noAdjPair_dropSlash {bad : Char → Bool} {l : Str}
    (h : noAdjPair bad l = true) :
    noAdjPair bad (ToolGenerator.dropSlash l) = true := by
  unfold ToolGenerator.dropSlash
  split
  · next rest => exact noAdjPair_tail h
  · exact h

theorem replaceSep_not_sep {d : Char} (h : sepChar d = false) :
    (if d = '/' || d = ':' || d = '-' then '_' else d) ≠ '_' := by
  have hps : ¬ d = '/' ∧ ¬ d = ':' ∧ ¬ d = '-' ∧ ¬ d = '_' := by
    simpa [sepChar, and_assoc] using h
  rw [if_neg (by simp [hps.1, hps.2.1, hps.2.2.1])]
  exact hps.2.2.2

theorem noAdjPair_replaceSep : ∀ {l : Str}, noAdjPair sepChar l = true →
    noAdjPair (· = '_') (ToolGenerator.replaceSep l) = true := by
  intro l
  induction l with
  | nil => intro _; rfl
  | cons c rest ih =>
    intro h
    cases rest with
    | nil => rfl
    | cons c₂ rest₂ =>
      simp only [noAdjPair, Bool.and_eq_true] at h
      have hih := ih h.2
      unfold ToolGenerator.replaceSep at hih ⊢
      simp only [List.map_cons] at hih ⊢
      simp only [noAdjPair, Bool.and_eq_true]
      refine ⟨?_, hih⟩
      by_cases hs1 : sepChar c = true
      · by_cases hs2 : sepChar c₂ = true
        · have := h.1
          rw [hs1, hs2] at this
          simp at this
        · have hne := replaceSep_not_sep (Bool.eq_false_iff.mpr hs2)
          rw [decide_eq_false hne]
          simp
      · have hne := replaceSep_not_sep (Bool.eq_false_iff.mpr hs1)
        rw [decide_eq_false hne]
        simp

theorem noAdjPair_pair {bad : Char → Bool} {b₁ b₂ : Char} {v : Str} :
    ∀ {u : Str}, noAdjPair bad (u ++ b₁ :: b₂ :: v) = true →
    (bad b₁ && bad b₂) = false := by
  intro u
  induction u with
  | nil =>
    intro h
    simp only [List.nil_append, noAdjPair, Bool.and_eq_true] at h
    have h1 := h.1
    cases hbb : (bad b₁ && bad b₂) with
    | false => rfl
    | true =>
      rw [hbb] at h1
      simp at h1
  | cons c u ih =>
    intro h
    rw [List.cons_append] at h
    exact ih (noAdjPair_tail h)

theorem dropSuffix_decomp {p l : Str} (h : p.isSuffixOf l = true) :
    dropSuffix p l ++ p = l := by
  obtain ⟨t, ht⟩ := List.isSuffixOf_iff_suffix.mp h
  unfold dropSuffix
  rw [if_pos h, ← ht]
  have hlen : (t ++ p).length - p.length = t.length := by
    simp
  rw [hlen, List.take_left]

theorem dropSuffix_of_neg {p l : Str} (h : p.isSuffixOf l = false) :
    dropSuffix p l = l := by
  unfold dropSuffix
  simp [h]

theorem getLast?_underscore_decomp {l : Str} (h : l.getLast? = some '_') :
    ∃ m, l = m ++ ['_'] := by
  have := isSuffixOf_singleton_iff.mpr h
  obtain ⟨m, hm⟩ := List.isSuffixOf_iff_suffix.mp this
  exact ⟨m, hm.symm⟩

theorem trailing_of_noUU {n0 : Str} (h : noAdjPair (· = '_') n0 = true) :
    (if containsSub (str "_id") n0 || ['_'].isSuffixOf n0 then
      dropSuffix (str "_") (dropSuffix (str "_id") n0)
    else n0).getLast? ≠ some '_' := by
  by_cases hb : (containsSub (str "_id") n0 || ['_'].isSuffixOf n0) = true
  · rw [if_pos hb]
    by_cases hid : (str "_id").isSuffixOf n0 = true
    · have hdec := dropSuffix_decomp hid
      set m := dropSuffix (str "_id") n0 with hm
      have hmlast : m.getLast? ≠ some '_' := by
        intro hcon
        obtain ⟨m', hm'⟩ := getLast?_underscore_decomp hcon
        have : n0 = m' ++ '_' :: '_' :: str "id" := by
          rw [← hdec, hm']
          simp [str]
        rw [this] at h
        have := noAdjPair_pair h
        simp at this
      have hnend : (str "_").isSuffixOf m = false := by
        by_contra hcon
        have : (str "_").isSuffixOf m = true := by
          simpa using hcon
        rw [show str "_" = ['_'] from rfl] at this
        exact hmlast (isSuffixOf_singleton_iff.mp this)
      rw [dropSuffix_of_neg hnend]
      exact hmlast
    · have hm : dropSuffix (str "_id") n0 = n0 :=
        dropSuffix_of_neg (Bool.eq_false_iff.mpr hid)
      rw [hm]
      by_cases hu : (str "_").isSuffixOf n0 = true
      · have hdec := dropSuffix_decomp hu
        set m₂ := dropSuffix (str "_") n0 with hm₂
        intro hcon
        obtain ⟨m', hm'⟩ := getLast?_underscore_decomp hcon
        have : n0 = m' ++ '_' :: '_' :: [] := by
          rw [← hdec, hm']
          simp [str]
        rw [this] at h
        have := noAdjPair_pair h
        simp at this
      · rw [dropSuffix_of_neg (Bool.eq_false_iff.mpr hu)]
        intro hcon
        have : ['_'].isSuffixOf n0 = true := isSuffixOf_singleton_iff.mpr hcon
        rw [show (str "_") = ['_'] from rfl] at hu
        exact hu this
  · rw [if_neg (by simpa using hb)]
    intro hcon
    have : ['_'].isSuffixOf n0 = true := isSuffixOf_singleton_iff.mpr hcon
    simp [this] at hb

theorem mem_dropSuffix {c : Char} {p l : Str}
    (h : c ∈ dropSuffix p l) : c ∈ l := by
  unfold dropSuffix at h
  split at h
  · exact (List.take_sublist _ _).subset h
  · exact h

theorem mem_dropApi {c : Char} {l : Str}
    (h : c ∈ ToolGenerator.dropApi l) : c ∈ l := by
  unfold ToolGenerator.dropApi at h
  split at h
  · simp [h]
  · exact h

theorem mem_dropSlash {c : Char} {l : Str}
    (h : c ∈ ToolGenerator.dropSlash l) : c ∈ l := by
  unfold ToolGenerator.dropSlash at h
  split at h
  · simp [h]
  · exact h

theorem lower_replaceSep {l : Str} (hl : ∀ d ∈ l, d.toLower = d) :
    ∀ c ∈ ToolGenerator.replaceSep l, c.toLower = c := by
  intro c hc
  obtain ⟨d, hd, rfl⟩ := List.mem_map.mp hc
  by_cases hsep : (d = '/' || d = ':' || d = '-' : Bool) = true
  · rw [if_pos hsep]
    decide
  · rw [if_neg hsep]
    exact hl d hd

theorem lower_method (m : HttpMethod) : ∀ c ∈ m.lower, c.toLower = c := by
  cases m <;> decide

theorem method_lower_head (m : HttpMethod) :
    ∃ c₀ rest₀, m.lower = c₀ :: rest₀ ∧ c₀ ≠ '_' := by
  cases m <;> exact ⟨_, _, rfl, by decide⟩

/-! ### Bracket-scanner lemmas -/

theorem bracketFree_spec {l : Str} (h : bracketFree l = true) :
    '[' ∉ l ∧ ']' ∉ l := by
  unfold bracketFree at h
  rw [List.all_eq_true] at h
  constructor
  · intro hmem
    have := h _ hmem
    simp at this
  · intro hmem
    have := h _ hmem
    simp at this

theorem cbAux_skip : ∀ {x : Str} (t : Str), '[' ∉ x →
    convertBracketsAux none (x ++ t) = x ++ convertBracketsAux none t := by
  intro x
  induction x with
  | nil => intro t _; rfl
  | cons c x ih =>
    intro t hmem
    have hc : ¬ c = '[' := by
      intro h
      exact hmem (by simp [h])
    rw [List.cons_append,
      show convertBracketsAux none (c :: (x ++ t))
        = if c = '[' then convertBracketsAux (some []) (x ++ t)
          else c :: convertBracketsAux none (x ++ t) from rfl,
      if_neg (by simpa using hc), ih t (fun h => hmem (by simp [h])),
      List.cons_append]

theorem cbAux_group : ∀ {a : Str} (acc t : Str), ']' ∉ a →
    acc.reverse ++ a ≠ [] →
    convertBracketsAux (some acc) (a ++ ']' :: t)
      = ':' :: (acc.reverse ++ a) ++ convertBracketsAux none t := by
  intro a
  induction a with
  | nil =>
    intro acc t _ hne
    have hacc : acc ≠ [] := by
      intro h
      exact hne (by simp [h])
    have hie : acc.isEmpty = false := by
      simpa using hacc
    rw [List.nil_append,
      show convertBracketsAux (some acc) (']' :: t)
        = if (']' : Char) = ']' then
            (if acc.isEmpty then '[' :: ']' :: convertBracketsAux none t
             else ':' :: acc.reverse ++ convertBracketsAux none t)
          else convertBracketsAux (some (']' :: acc)) t from rfl,
      if_pos rfl, if_neg (by simp [hie])]
    simp
  | cons c a ih =>
    intro acc t hmem hne
    have hc : ¬ c = ']' := by
      intro h
      exact hmem (by simp [h])
    rw [List.cons_append,
      show convertBracketsAux (some acc) (c :: (a ++ ']' :: t))
        = if c = ']' then
            (if acc.isEmpty then '[' :: ']' :: convertBracketsAux none (a ++ ']' :: t)
             else ':' :: acc.reverse ++ convertBracketsAux none (a ++ ']' :: t))
          else convertBracketsAux (some (c :: acc)) (a ++ ']' :: t) from rfl,
      if_neg (by simpa using hc),
      ih (c :: acc) t (fun h => hmem (by simp [h])) (by simp)]
    simp

theorem ebnAux_skip : ∀ {x : Str} (t : Str), '[' ∉ x →
    extractBracketNamesAux none (x ++ t) = extractBracketNamesAux none t := by
  intro x
  induction x with
  | nil => intro t _; rfl
  | cons c x ih =>
    intro t hmem
    have hc : ¬ c = '[' := by
      intro h
      exact hmem (by simp [h])
    rw [List.cons_append,
      show extractBracketNamesAux none (c :: (x ++ t))
        = if c = '[' then extractBracketNamesAux (some []) (x ++ t)
          else extractBracketNamesAux none (x ++ t) from rfl,
      if_neg (by simpa using hc), ih t (fun h => hmem (by simp [h]))]

theorem ebnAux_group : ∀ {a : Str} (acc t : Str), ']' ∉ a →
    acc.reverse ++ a ≠ [] →
    extractBracketNamesAux (some acc) (a ++ ']' :: t)
      = (acc.reverse ++ a) :: extractBracketNamesAux none t := by
  intro a
  induction a with
  | nil =>
    intro acc t _ hne
    have hacc : acc ≠ [] := by
      intro h
      exact hne (by simp [h])
    have hie : acc.isEmpty = false := by
      simpa using hacc
    rw [List.nil_append,
      show extractBracketNamesAux (some acc) (']' :: t)
        = if (']' : Char) = ']' then
            (if acc.isEmpty then extractBracketNamesAux none t
             else acc.reverse :: extractBracketNamesAux none t)
          else extractBracketNamesAux (some (']' :: acc)) t from rfl,
      if_pos rfl, if_neg (by simp [hie])]
    simp
  | cons c a ih =>
    intro acc t hmem hne
    have hc : ¬ c = ']' := by
      intro h
      exact hmem (by simp [h])
    rw [List.cons_append,
      show extractBracketNamesAux (some acc) (c :: (a ++ ']' :: t))
        = if c = ']' then
            (if acc.isEmpty then extractBracketNamesAux none (a ++ ']' :: t)
             else acc.reverse :: extractBracketNamesAux none (a ++ ']' :: t))
          else extractBracketNamesAux (some (c :: acc)) (a ++ ']' :: t) from rfl,
      if_neg (by simpa using hc),
      ih (c :: acc) t (fun h => hmem (by simp [h])) (by simp)]
    simp

theorem ebnAux_none_end : ∀ {z : Str}, '[' ∉ z →
    extractBracketNamesAux none z = [] := by
  intro z
  induction z with
  | nil => intro _; rfl
  | cons c z ih =>
    intro hmem
    have hc : ¬ c = '[' := by
      intro h
      exact hmem (by simp [h])
    rw [show extractBracketNamesAux none (c :: z)
      = if c = '[' then extractBracketNamesAux (some []) z
        else extractBracketNamesAux none z from rfl,
      if_neg (by simpa using hc), ih (fun h => hmem (by simp [h]))]

theorem cbAux_open {rest : Str} :
    convertBracketsAux none ('[' :: rest) = convertBracketsAux (some []) rest := rfl

theorem ebnAux_open {rest : Str} :
    extractBracketNamesAux none ('[' :: rest)
      = extractBracketNamesAux (some []) rest := rfl

/-! ### Fixer-stage lemmas -/

theorem filterUnresolvedIssues_eq (tool : Tool) :
    ToolFixer.filterUnresolvedIssues tool
      = (tool.issues.getD []).filter (issuePred tool) := by
  unfold ToolFixer.filterUnresolvedIssues issuePred
  cases tool.issues with
  | none => rfl
  | some issues => rfl

theorem issuePred_congr {t t' : Tool} (hd : t.description = t'.description)
    (hp : t.parameters.properties = t'.parameters.properties) :
    issuePred t = issuePred t' := by
  unfold issuePred
  rw [hd, hp]

theorem issuePred_keeps {t : Tool} {issue : Str}
    (h1 : issue ≠ str "missing_description")
    (h2 : issue ≠ str "missing_parameter_descriptions") :
    issuePred t issue = true := by
  unfold issuePred
  rw [decide_eq_false h1, decide_eq_false h2]
  simp

theorem generateParameterDescription_congr {t t' : Tool}
    (h : t.endpoint = t'.endpoint) (name ty : Str) :
    ToolFixer.generateParameterDescription name ty t
      = ToolFixer.generateParameterDescription name ty t' := by
  unfold ToolFixer.generateParameterDescription
  rw [h]

theorem fixer_generateDescription_congr {t t' : Tool}
    (he : t.endpoint = t'.endpoint) (hm : t.method = t'.method) :
    ToolFixer.generateDescription t = ToolFixer.generateDescription t' := by
  unfold ToolFixer.generateDescription
  rw [he, hm]

theorem fixer_generateInstruction_congr {t t' : Tool}
    (he : t.endpoint = t'.endpoint) (hm : t.method = t'.method) :
    ToolFixer.generateInstruction t = ToolFixer.generateInstruction t' := by
  unfold ToolFixer.generateInstruction
  rw [he, hm]

theorem fixParameterDescriptions_frame (t : Tool) :
    (ToolFixer.fixParameterDescriptions t).1.id = t.id ∧
    (ToolFixer.fixParameterDescriptions t).1.name = t.name ∧
    (ToolFixer.fixParameterDescriptions t).1.description = t.description ∧
    (ToolFixer.fixParameterDescriptions t).1.instruction = t.instruction ∧
    (ToolFixer.fixParameterDescriptions t).1.source = t.source ∧
    (ToolFixer.fixParameterDescriptions t).1.enabled = t.enabled ∧
    (ToolFixer.fixParameterDescriptions t).1.method = t.method ∧
    (ToolFixer.fixParameterDescriptions t).1.endpoint = t.endpoint ∧
    (ToolFixer.fixParameterDescriptions t).1.fixed_params = t.fixed_params ∧
    (ToolFixer.fixParameterDescriptions t).1.auth = t.auth ∧
    (ToolFixer.fixParameterDescriptions t).1.issues = t.issues ∧
    (ToolFixer.fixParameterDescriptions t).1.parameters.type
      = t.parameters.type ∧
    (ToolFixer.fixParameterDescriptions t).1.parameters.required
      = t.parameters.required := by
  simp only [ToolFixer.fixParameterDescriptions]
  split <;> simp

theorem fixParameterDescriptions_count (t : Tool) :
    (ToolFixer.fixParameterDescriptions t).2
      = (t.parameters.properties.map (fun p =>
          if ToolFixer.needsParamFix p.1 p.2 then 1 else 0)).sum := by
  have hmap : ((t.parameters.properties.map (fun p =>
      if ToolFixer.needsParamFix p.1 p.2 then
        ((p.1, { p.2 with
          description := ToolFixer.generateParameterDescription p.1 p.2.type t }), 1)
      else (p, (0 : Nat)))).map Prod.snd)
        = t.parameters.properties.map (fun p =>
            if ToolFixer.needsParamFix p.1 p.2 then 1 else 0) := by
    rw [List.map_map]
    refine List.map_congr_left (fun p hp => ?_)
    by_cases hc : ToolFixer.needsParamFix p.1 p.2 <;> simp [hc]
  simp only [ToolFixer.fixParameterDescriptions]
  split <;> simp only [hmap]

theorem fixParameterDescriptions_props (t : Tool) :
    (ToolFixer.fixParameterDescriptions t).1.parameters.properties
      = t.parameters.properties.map (fun p =>
          if ToolFixer.needsParamFix p.1 p.2 then
            (p.1, { type := p.2.type, description :=
                      ToolFixer.generateParameterDescription p.1 p.2.type t })
          else p) := by
  have hmap : ((t.parameters.properties.map (fun p =>
      if ToolFixer.needsParamFix p.1 p.2 then
        ((p.1, { p.2 with
          description := ToolFixer.generateParameterDescription p.1 p.2.type t }), 1)
      else (p, (0 : Nat)))).map Prod.fst)
        = t.parameters.properties.map (fun p =>
            if ToolFixer.needsParamFix p.1 p.2 then
              (p.1, { type := p.2.type, description :=
                        ToolFixer.generateParameterDescription p.1 p.2.type t })
            else p) := by
    rw [List.map_map]
    refine List.map_congr_left (fun p hp => ?_)
    by_cases hc : ToolFixer.needsParamFix p.1 p.2 <;> simp [hc]
  simp only [ToolFixer.fixParameterDescriptions]
  split
  · simp only [hmap]
  · next hcount =>
    have hzero : (t.parameters.properties.map (fun p =>
        if ToolFixer.needsParamFix p.1 p.2 then 1 else 0)).sum = (0 : Nat) := by
      rw [← fixParameterDescriptions_count t]
      simp only [ToolFixer.fixParameterDescriptions]
      split
      · next hc => exact absurd hc hcount
      · omega
    have hallzero := List.sum_eq_zero_iff.mp hzero
    symm
    have hids : ∀ p ∈ t.parameters.properties,
        (if ToolFixer.needsParamFix p.1 p.2 then
          (p.1, { type := p.2.type, description :=
                    ToolFixer.generateParameterDescription p.1 p.2.type t })
        else p) = p := by
      intro p hp
      have := hallzero _ (List.mem_map.mpr ⟨p, hp, rfl⟩)
      by_cases hc : ToolFixer.needsParamFix p.1 p.2
      · rw [if_pos hc] at this
        simp at this
      · rw [if_neg hc]
    rw [List.map_congr_left hids]
    simp

/-! ### Stage characterizations of `fixTool` -/

theorem tool_ext {a b : Tool} (h1 : a.id = b.id) (h2 : a.name = b.name)
    (h3 : a.description = b.description) (h4 : a.instruction = b.instruction)
    (h5 : a.source = b.source) (h6 : a.enabled = b.enabled)
    (h7 : a.method = b.method) (h8 : a.endpoint = b.endpoint)
    (h9 : a.parameters = b.parameters) (h10 : a.fixed_params = b.fixed_params)
    (h11 : a.auth = b.auth) (h12 : a.issues = b.issues) : a = b := by
  cases a
  cases b
  simp_all

theorem params_ext {a b : ToolParameters} (h1 : a.type = b.type)
    (h2 : a.properties = b.properties) (h3 : a.required = b.required) :
    a = b := by
  cases a
  cases b
  simp_all

theorem step1_fst (t : Tool) :
    (ToolFixer.step1 t).1 =
      { t with description :=
          if isBlank t.description then ToolFixer.generateDescription t
          else t.description } := by
  unfold ToolFixer.step1
  split <;> rename_i h <;> simp [h]

theorem step2_fst (q : Tool × List Str) :
    (ToolFixer.step2 q).1 =
      { q.1 with instruction :=
          if isBlank q.1.instruction then ToolFixer.generateInstruction q.1
          else q.1.instruction } := by
  unfold ToolFixer.step2
  split <;> rename_i h <;> simp [h]

theorem fixParameterDescriptions_fst (t : Tool) :
    (ToolFixer.fixParameterDescriptions t).1 =
      { t with parameters :=
          { t.parameters with properties :=
              t.parameters.properties.map (fun p =>
                if ToolFixer.needsParamFix p.1 p.2 then
                  (p.1, { type := p.2.type, description :=
                    ToolFixer.generateParameterDescription p.1 p.2.type t })
                else p) } } := by
  obtain ⟨f1, f2, f3, f4, f5, f6, f7, f8, f9, f10, f11, f12, f13⟩ :=
    fixParameterDescriptions_frame t
  refine tool_ext f1 f2 f3 f4 f5 f6 f7 f8 ?_ f9 f10 f11
  exact params_ext f12 (fixParameterDescriptions_props t) f13

theorem step3_fst (q : Tool × List Str) :
    (ToolFixer.step3 q).1 =
      { q.1 with parameters :=
          { q.1.parameters with properties :=
              q.1.parameters.properties.map (fun p =>
                if ToolFixer.needsParamFix p.1 p.2 then
                  (p.1, { type := p.2.type, description :=
                    ToolFixer.generateParameterDescription p.1 p.2.type q.1 })
                else p) } } := by
  simp only [ToolFixer.step3]
  split
  · exact fixParameterDescriptions_fst q.1
  · next hcount =>
    show q.1 = _
    have hzero : (q.1.parameters.properties.map (fun p =>
        if ToolFixer.needsParamFix p.1 p.2 then 1 else 0)).sum = (0 : Nat) := by
      rw [← fixParameterDescriptions_count q.1]
      omega
    have hallzero := List.sum_eq_zero_iff.mp hzero
    have hids : ∀ p ∈ q.1.parameters.properties,
        (if ToolFixer.needsParamFix p.1 p.2 then
          (p.1, { type := p.2.type, description :=
            ToolFixer.generateParameterDescription p.1 p.2.type q.1 })
        else p) = p := by
      intro p hp
      have := hallzero _ (List.mem_map.mpr ⟨p, hp, rfl⟩)
      by_cases hcp : ToolFixer.needsParamFix p.1 p.2
      · rw [if_pos hcp] at this
        simp at this
      · rw [if_neg hcp]
    rw [List.map_congr_left hids]
    have hmapid : q.1.parameters.properties.map (fun p => p)
        = q.1.parameters.properties := by
      simp
    rw [hmapid]

theorem step4_fst (q : Tool × List Str) :
    (ToolFixer.step4 q).1 =
      { q.1 with
          name := if ToolFixer.hasNamingIssues q.1.name then
              ToolFixer.fixNaming q.1.name else q.1.name,
          id := if ToolFixer.hasNamingIssues q.1.name then
              ToolFixer.fixNaming q.1.name else q.1.id } := by
  unfold ToolFixer.step4
  split <;> rename_i h <;> simp [h]

theorem step5_description (u : Tool) :
    (ToolFixer.step5 u).description = u.description := by
  unfold ToolFixer.step5
  split <;> rfl

theorem step5_instruction (u : Tool) :
    (ToolFixer.step5 u).instruction = u.instruction := by
  unfold ToolFixer.step5
  split <;> rfl

theorem step5_name (u : Tool) : (ToolFixer.step5 u).name = u.name := by
  unfold ToolFixer.step5
  split <;> rfl

theorem step5_id (u : Tool) : (ToolFixer.step5 u).id = u.id := by
  unfold ToolFixer.step5
  split <;> rfl

theorem step5_source (u : Tool) : (ToolFixer.step5 u).source = u.source := by
  unfold ToolFixer.step5
  split <;> rfl

theorem step5_enabled (u : Tool) : (ToolFixer.step5 u).enabled = u.enabled := by
  unfold ToolFixer.step5
  split <;> rfl

theorem step5_method (u : Tool) : (ToolFixer.step5 u).method = u.method := by
  unfold ToolFixer.step5
  split <;> rfl

theorem step5_endpoint (u : Tool) :
    (ToolFixer.step5 u).endpoint = u.endpoint := by
  unfold ToolFixer.step5
  split <;> rfl

theorem step5_parameters (u : Tool) :
    (ToolFixer.step5 u).parameters = u.parameters := by
  unfold ToolFixer.step5
  split <;> rfl

theorem step5_fixed (u : Tool) :
    (ToolFixer.step5 u).fixed_params = u.fixed_params := by
  unfold ToolFixer.step5
  split <;> rfl

theorem step5_auth (u : Tool) : (ToolFixer.step5 u).auth = u.auth := by
  unfold ToolFixer.step5
  split <;> rfl

theorem step5_issues_getD (u : Tool) :
    ((ToolFixer.step5 u).issues.getD []) = dedupeFirst (u.issues.getD []) := by
  unfold ToolFixer.step5
  split
  · next hnone => simp [hnone, dedupeFirst, dedupeAux]
  · next is hsome => simp [hsome]

theorem step6_description (u : Tool) :
    (ToolFixer.step6 u).description = u.description := rfl

theorem step6_parameters (u : Tool) :
    (ToolFixer.step6 u).parameters = u.parameters := rfl

theorem step6_issues (u : Tool) :
    (ToolFixer.step6 u).issues
      = some ((u.issues.getD []).filter (issuePred u)) := by
  unfold ToolFixer.step6
  simp [filterUnresolvedIssues_eq]

/-! ### Master characterization of the fixed tool -/

theorem fixTool_tool_eq_steps (t : Tool) :
    (ToolFixer.fixTool t).tool = ToolFixer.step6 (ToolFixer.step5
      ((ToolFixer.step4 (ToolFixer.step3 (ToolFixer.step2
        (ToolFixer.step1 t)))).1)) := by
  unfold ToolFixer.fixTool
  rfl

theorem fixTool_tool_description (t : Tool) :
    (ToolFixer.fixTool t).tool.description =
      if isBlank t.description then ToolFixer.generateDescription t
      else t.description := by
  rw [fixTool_tool_eq_steps]
  unfold ToolFixer.step6
  simp only [step5_description, step4_fst, step3_fst, step2_fst, step1_fst]

theorem fixTool_tool_instruction (t : Tool) :
    (ToolFixer.fixTool t).tool.instruction =
      if isBlank t.instruction then ToolFixer.generateInstruction t
      else t.instruction := by
  rw [fixTool_tool_eq_steps]
  unfold ToolFixer.step6
  simp only [step5_instruction, step4_fst, step3_fst, step2_fst, step1_fst]
  congr 1

theorem fixTool_tool_name (t : Tool) :
    (ToolFixer.fixTool t).tool.name =
      if ToolFixer.hasNamingIssues t.name then ToolFixer.fixNaming t.name
      else t.name := by
  rw [fixTool_tool_eq_steps]
  unfold ToolFixer.step6
  simp only [step5_name, step4_fst, step3_fst, step2_fst, step1_fst]

theorem fixTool_tool_id (t : Tool) :
    (ToolFixer.fixTool t).tool.id =
      if ToolFixer.hasNamingIssues t.name then ToolFixer.fixNaming t.name
      else t.id := by
  rw [fixTool_tool_eq_steps]
  unfold ToolFixer.step6
  simp only [step5_id, step4_fst, step3_fst, step2_fst, step1_fst]

theorem fixTool_tool_props (t : Tool) :
    (ToolFixer.fixTool t).tool.parameters.properties =
      t.parameters.properties.map (fun p =>
        if ToolFixer.needsParamFix p.1 p.2 then
          (p.1, { type := p.2.type, description :=
            ToolFixer.generateParameterDescription p.1 p.2.type t })
        else p) := by
  have hq : (ToolFixer.step2 (ToolFixer.step1 t)).1.parameters
      = t.parameters := by
    rw [step2_fst, step1_fst]
  have he : (ToolFixer.step2 (ToolFixer.step1 t)).1.endpoint = t.endpoint := by
    rw [step2_fst, step1_fst]
  rw [fixTool_tool_eq_steps]
  unfold ToolFixer.step6
  simp only [step5_parameters, step4_fst, step3_fst]
  rw [hq]
  refine List.map_congr_left (fun p hp => ?_)
  by_cases hc : ToolFixer.needsParamFix p.1 p.2 = true
  · rw [if_pos hc, if_pos hc,
      generateParameterDescription_congr he p.1 p.2.type]
  · rw [if_neg hc, if_neg hc]

theorem fixTool_tool_frame (t : Tool) :
    (ToolFixer.fixTool t).tool.method = t.method ∧
    (ToolFixer.fixTool t).tool.endpoint = t.endpoint ∧
    (ToolFixer.fixTool t).tool.source = t.source ∧
    (ToolFixer.fixTool t).tool.enabled = t.enabled ∧
    (ToolFixer.fixTool t).tool.auth = t.auth ∧
    (ToolFixer.fixTool t).tool.fixed_params = t.fixed_params ∧
    (ToolFixer.fixTool t).tool.parameters.type = t.parameters.type ∧
    (ToolFixer.fixTool t).tool.parameters.required = t.parameters.required := by
  rw [fixTool_tool_eq_steps]
  unfold ToolFixer.step6
  refine ⟨?_, ?_, ?_, ?_, ?_, ?_, ?_, ?_⟩
  · simp only [step5_method, step4_fst, step3_fst, step2_fst, step1_fst]
  · simp only [step5_endpoint, step4_fst, step3_fst, step2_fst, step1_fst]
  · simp only [step5_source, step4_fst, step3_fst, step2_fst, step1_fst]
  · simp only [step5_enabled, step4_fst, step3_fst, step2_fst, step1_fst]
  · simp only [step5_auth, step4_fst, step3_fst, step2_fst, step1_fst]
  · simp only [step5_fixed, step4_fst, step3_fst, step2_fst, step1_fst]
  · simp only [step5_parameters, step4_fst, step3_fst, step2_fst, step1_fst]
  · simp only [step5_parameters, step4_fst, step3_fst, step2_fst, step1_fst]

theorem fixTool_tool_issues (t : Tool) :
    (ToolFixer.fixTool t).tool.issues =
      some ((dedupeFirst (t.issues.getD [])).filter
        (issuePred (ToolFixer.fixTool t).tool)) := by
  have hiss : (ToolFixer.step4 (ToolFixer.step3
      (ToolFixer.step2 (ToolFixer.step1 t)))).1.issues = t.issues := by
    simp only [step4_fst, step3_fst, step2_fst, step1_fst]
  have hpred : issuePred ((ToolFixer.step5 ((ToolFixer.step4 (ToolFixer.step3
      (ToolFixer.step2 (ToolFixer.step1 t)))).1)))
      = issuePred (ToolFixer.fixTool t).tool := by
    rw [fixTool_tool_eq_steps]
    refine issuePred_congr (step6_description _).symm ?_
    rw [step6_parameters]
  conv_lhs => rw [fixTool_tool_eq_steps]
  rw [step6_issues, step5_issues_getD, hiss, hpred]

/-! ### Non-blankness of the generated texts -/

theorem isBlank_cons_head {c : Char} {l : Str}
    (h : Char.isWhitespace c = false) : isBlank (c :: l) = false :=
  isBlank_eq_false_iff.mpr ⟨c, by simp, h⟩

theorem fixer_generateDescription_nonblank (t : Tool) :
    isBlank (ToolFixer.generateDescription t) = false := by
  unfold ToolFixer.generateDescription
  rcases hmm : t.method <;> simp only [hmm] <;> (try split) <;>
    (try simp only [List.append_assoc]) <;>
      exact isBlank_append_false _ (by decide)

theorem fixer_generateInstruction_nonblank (t : Tool) :
    isBlank (ToolFixer.generateInstruction t) = false := by
  unfold ToolFixer.generateInstruction
  rcases hmm : t.method <;> simp only [hmm] <;> (try split) <;>
    (try simp only [List.append_assoc]) <;>
      exact isBlank_append_false _ (by decide)

theorem capitalize_length (s : Str) :
    (ToolFixer.capitalize s).length = s.length := by
  cases s <;> rfl

theorem ne_of_length_ne {a b : Str} (h : a.length ≠ b.length) : a ≠ b := by
  intro hab
  exact h (by rw [hab])

theorem genPD_ne_placeholder (name ty : Str) (t : Tool) :
    ToolFixer.generateParameterDescription name ty t
      ≠ str "The " ++ name ++ str " parameter" := by
  have hT4 : (str "The ").length = 4 := rfl
  have hP10 : (str " parameter").length = 10 := rfl
  have hlen : (str "The " ++ name ++ str " parameter").length
      = name.length + 14 := by
    rw [List.length_append, List.length_append, hT4, hP10]
    omega
  have hhead : ∀ (c : Char) (u : Str), c ≠ 'T' →
      c :: u ≠ str "The " ++ name ++ str " parameter" := by
    intro c u hc hcon
    have h2 : c :: u = 'T' :: (str "he " ++ name ++ str " parameter") := hcon
    exact hc (List.cons.injEq .. ▸ h2).1
  have hcaplen : ∀ (suf : Str) (k : Nat), (str "The ").length = 4 →
      suf.length = k → k ≠ 14 →
      ToolFixer.capitalize name ++ suf ≠ str "The " ++ name ++ str " parameter" := by
    intro suf k _ hk hne
    refine ne_of_length_ne ?_
    rw [hlen, List.length_append, capitalize_length, hk]
    omega
  unfold ToolFixer.generateParameterDescription
  by_cases h1 : name = str "id"
  · rw [if_pos h1]
    exact hhead 'U' _ (by decide)
  rw [if_neg h1]
  by_cases h2 : ((str "_id").isSuffixOf name || (str "Id").isSuffixOf name) = true
  · rw [if_pos h2]
    exact hhead 'U' _ (by decide)
  rw [if_neg h2]
  by_cases h3 : name = str "email"
  · rw [if_pos h3]; subst h3; decide
  rw [if_neg h3]
  by_cases h4 : name = str "password"
  · rw [if_pos h4]; subst h4; decide
  rw [if_neg h4]
  by_cases h5 : name = str "name"
  · rw [if_pos h5]; subst h5; decide
  rw [if_neg h5]
  by_cases h6 : name = str "description"
  · rw [if_pos h6]; subst h6; decide
  rw [if_neg h6]
  by_cases h7 : name = str "status"
  · rw [if_pos h7]; subst h7; decide
  rw [if_neg h7]
  by_cases h8 : (decide (name = str "created_at")
      || decide (name = str "createdAt")) = true
  · rw [if_pos h8]
    rcases Bool.or_eq_true _ _ |>.mp h8 with h | h <;>
      (have hs := of_decide_eq_true h; subst hs; decide)
  rw [if_neg h8]
  by_cases h9 : (decide (name = str "updated_at")
      || decide (name = str "updatedAt")) = true
  · rw [if_pos h9]
    rcases Bool.or_eq_true _ _ |>.mp h9 with h | h <;>
      (have hs := of_decide_eq_true h; subst hs; decide)
  rw [if_neg h9]
  by_cases h10 : ty = str "string"
  · rw [if_pos h10]
    exact hcaplen _ 9 hT4 rfl (by decide)
  rw [if_neg h10]
  by_cases h11 : (decide (ty = str "number") || decide (ty = str "integer")) = true
  · rw [if_pos h11]
    exact hcaplen _ 16 hT4 rfl (by decide)
  rw [if_neg h11]
  by_cases h12 : ty = str "boolean"
  · rw [if_pos h12]
    exact hcaplen _ 13 hT4 rfl (by decide)
  rw [if_neg h12]
  by_cases h13 : ty = str "array"
  · rw [if_pos h13]
    exact hhead 'A' _ (by decide)
  rw [if_neg h13]
  by_cases h14 : ty = str "object"
  · rw [if_pos h14]
    exact hcaplen _ 7 hT4 rfl (by decide)
  rw [if_neg h14]
  refine ne_of_length_ne ?_
  rw [hlen, capitalize_length, List.length_map]
  omega

/-! ### Resource-name agreement (for the description templates) -/

theorem splitChar_chars {sep : Char} : ∀ {l : Str} {s : Str},
    s ∈ splitChar sep l → ∀ c ∈ s, c ∈ l := by
  intro l
  induction l with
  | nil =>
    intro s hs c hc
    simp [splitChar] at hs
    subst hs
    simp at hc
  | cons x rest ih =>
    intro s hs c hc
    by_cases hx : x = sep
    · rw [show splitChar sep (x :: rest) = [] :: splitChar sep rest by
        simp [splitChar, hx]] at hs
      rcases List.mem_cons.mp hs with rfl | hs
      · simp at hc
      · exact List.mem_cons.mpr (Or.inr (ih hs c hc))
    · rw [show splitChar sep (x :: rest)
        = (match splitChar sep rest with
           | [] => [[x]]
           | s :: ss => (x :: s) :: ss) by simp [splitChar, hx]] at hs
      cases hsp : splitChar sep rest with
      | nil =>
        rw [hsp] at hs
        simp at hs
        subst hs
        simp at hc
        simp [hc]
      | cons s₀ ss =>
        rw [hsp] at hs
        rcases List.mem_cons.mp hs with rfl | hs
        · rcases List.mem_cons.mp hc with rfl | hc
          · simp
          · exact List.mem_cons.mpr
              (Or.inr (ih (by rw [hsp]; simp) c hc))
        · exact List.mem_cons.mpr
            (Or.inr (ih (by rw [hsp]; exact List.mem_cons.mpr (Or.inr hs)) c hc))

theorem mem_dropApi_sub {c : Char} {l : Str}
    (h : c ∈ ToolGenerator.dropApi l) : c ∈ l := mem_dropApi h

theorem extractResourceName_agree (e : Str) (h : braceL ∉ e) :
    ToolFixer.extractResourceName e = ToolGenerator.extractResourceName e := by
  unfold ToolFixer.extractResourceName ToolGenerator.extractResourceName
  have hfilter : (splitChar '/' (ToolGenerator.dropApi e)).filter
        (fun s => !s.isEmpty && !([':'].isPrefixOf s) && !([braceL].isPrefixOf s))
      = (splitChar '/' (ToolGenerator.dropApi e)).filter
        (fun s => !s.isEmpty && !([':'].isPrefixOf s)) := by
    refine List.filter_congr (fun s hs => ?_)
    have hnb : [braceL].isPrefixOf s = false := by
      cases s with
      | nil => rfl
      | cons c t =>
        have hc : c ∈ e := mem_dropApi (splitChar_chars hs c (by simp))
        have hcb : braceL ≠ c := fun hh => h (hh ▸ hc)
        simp [List.isPrefixOf]
        intro hcon
        exact hcb hcon
    rw [hnb]
    simp
  simp only [hfilter]

theorem containsSub_head_notMem {c : Char} {p l : Str} (h : c ∉ l) :
    containsSub (c :: p) l = false := by
  induction l with
  | nil => rfl
  | cons x rest ih =>
    have hx : c ≠ x := fun he => h (he ▸ List.mem_cons_self x rest)
    rw [show containsSub (c :: p) (x :: rest)
      = ((c :: p).isPrefixOf (x :: rest) || containsSub (c :: p) rest)
      from rfl]
    rw [ih (fun hm => h (List.mem_cons.mpr (Or.inr hm)))]
    simp [List.isPrefixOf, hx]

/-! ### The fixer is a no-op on an already-clean tool -/

theorem fixTool_noop (u : Tool)
    (hdesc : isBlank u.description = false)
    (hinstr : isBlank u.instruction = false)
    (hprops : ∀ p ∈ u.parameters.properties,
      ToolFixer.needsParamFix p.1 p.2 = false)
    (hname : ToolFixer.hasNamingIssues u.name = false)
    (hiss : ∃ l, u.issues = some l ∧ l.Nodup ∧ l.filter (issuePred u) = l) :
    ToolFixer.fixTool u = ⟨u, false, []⟩ := by
  obtain ⟨l, hl, hnd, hfilt⟩ := hiss
  have h1 : ToolFixer.step1 u = (u, []) := by
    unfold ToolFixer.step1
    rw [if_neg (by simp [hdesc])]
  have h2 : ToolFixer.step2 (u, []) = (u, []) := by
    unfold ToolFixer.step2
    rw [if_neg (by simp [hinstr])]
  have hcount : (ToolFixer.fixParameterDescriptions u).2 = 0 := by
    rw [fixParameterDescriptions_count]
    refine List.sum_eq_zero (fun x hx => ?_)
    obtain ⟨p, hp, rfl⟩ := List.mem_map.mp hx
    rw [hprops p hp]
    rfl
  have h3 : ToolFixer.step3 (u, []) = (u, []) := by
    simp [ToolFixer.step3, hcount]
  have h4 : ToolFixer.step4 (u, []) = (u, []) := by
    unfold ToolFixer.step4
    rw [if_neg (by simp [hname])]
  have h5 : ToolFixer.step5 u = u := by
    unfold ToolFixer.step5
    rw [hl]
    show { u with issues := some (dedupeFirst l) } = u
    rw [dedupeFirst_of_nodup hnd, ← hl]
  have h6 : ToolFixer.step6 u = u := by
    unfold ToolFixer.step6
    rw [filterUnresolvedIssues_eq, hl]
    simp only [Option.getD_some]
    rw [hfilt, ← hl]
  unfold ToolFixer.fixTool
  simp only [h1, h2, h3, h4, h5, h6, List.isEmpty_nil, Bool.not_true]

theorem fixTool_output_fixpoint (t : Tool)
    (h : ∀ p ∈ t.parameters.properties,
      isBlank (ToolFixer.generateParameterDescription p.1 p.2.type t) = false) :
    ToolFixer.fixTool ((ToolFixer.fixTool t).tool)
      = ⟨(ToolFixer.fixTool t).tool, false, []⟩ := by
  refine fixTool_noop _ ?_ ?_ ?_ ?_ ?_
  · rw [fixTool_tool_description]
    by_cases hb : isBlank t.description = true
    · rw [if_pos hb]
      exact fixer_generateDescription_nonblank t
    · rw [if_neg hb]
      simpa using hb
  · rw [fixTool_tool_instruction]
    by_cases hb : isBlank t.instruction = true
    · rw [if_pos hb]
      exact fixer_generateInstruction_nonblank t
    · rw [if_neg hb]
      simpa using hb
  · intro p hp
    rw [fixTool_tool_props] at hp
    obtain ⟨q, hq, rfl⟩ := List.mem_map.mp hp
    by_cases hc : ToolFixer.needsParamFix q.1 q.2 = true
    · rw [if_pos hc]
      simp only [ToolFixer.needsParamFix]
      rw [h q hq, decide_eq_false (genPD_ne_placeholder q.1 q.2.type t)]
      rfl
    · rw [if_neg hc]
      simpa using hc
  · rw [fixTool_tool_name]
    by_cases hb : ToolFixer.hasNamingIssues t.name = true
    · rw [if_pos hb]
      exact fixNaming_ok t.name
    · rw [if_neg hb]
      simpa using hb
  · exact ⟨(dedupeFirst (t.issues.getD [])).filter
        (issuePred (ToolFixer.fixTool t).tool),
      fixTool_tool_issues t,
      List.Nodup.filter _ nodup_dedupeFirst,
      filter_self_idem⟩

/-! ### Claims -/

/-- Claim C1 (amended): for every endpoint string and HTTP verb, the
generated tool name contains no double underscore and never starts with an
underscore; moreover, if the endpoint is fully lowercase then the name is
fully lowercase, and if the endpoint has no two adjacent characters from
`{'/', ':', '-', '_'}` then the name does not end with an underscore. -/
theorem generateToolName_shape (endpoint : Str) (method : HttpMethod) :
    containsSub (str "__") (ToolGenerator.generateToolName endpoint method) = false ∧
    ['_'].isPrefixOf (ToolGenerator.generateToolName endpoint method) = false ∧
    (toLowerStr endpoint = endpoint →
      toLowerStr (ToolGenerator.generateToolName endpoint method) =
        ToolGenerator.generateToolName endpoint method) ∧
    (noAdjPair sepChar endpoint = true →
      ['_'].isSuffixOf (ToolGenerator.generateToolName endpoint method) = false) := by
  simp only [ToolGenerator.generateToolName]
  set n0 := ToolGenerator.replaceSep
    (ToolGenerator.dropSlash (ToolGenerator.dropApi endpoint)) with hn0
  set n1 := if containsSub (str "_id") n0 || ['_'].isSuffixOf n0 then
      dropSuffix (str "_") (dropSuffix (str "_id") n0)
    else n0 with hn1
  set n2 := if n1.isEmpty then str "root" else n1 with hn2
  obtain ⟨c₀, rest₀, hml, hc₀⟩ := method_lower_head method
  have hn2ne : n2 ≠ [] := by
    rw [hn2]
    split
    · decide
    · next hemp => simpa using hemp
  have hsubn1 : ∀ c ∈ n1, c ∈ n0 := by
    intro c hc
    rw [hn1] at hc
    split at hc
    · exact mem_dropSuffix (mem_dropSuffix hc)
    · exact hc
  refine ⟨collapse_noUU _, ?_, ?_, ?_⟩
  · rw [hml, List.cons_append]
    obtain ⟨w, hw⟩ := collapse_cons_shape c₀ (rest₀ ++ '_' :: n2)
    rw [hw]
    simp [List.isPrefixOf]
    intro h
    exact absurd h.symm hc₀
  · intro hlow
    rw [toLowerStr_eq_self_iff]
    intro c hc
    have hc2 : c ∈ method.lower ++ '_' :: n2 := mem_collapse hc
    rcases List.mem_append.mp hc2 with hc3 | hc3
    · exact lower_method method c hc3
    · rcases List.mem_cons.mp hc3 with rfl | hc4
      · decide
      · rw [hn2] at hc4
        by_cases hemp : n1.isEmpty
        · rw [if_pos hemp] at hc4
          exact (by decide : ∀ x ∈ str "root", Char.toLower x = x) c hc4
        · rw [if_neg hemp] at hc4
          have hcn0 : c ∈ n0 := hsubn1 c hc4
          rw [hn0] at hcn0
          refine lower_replaceSep (fun d hd => ?_) c hcn0
          exact toLowerStr_eq_self_iff.mp hlow d (mem_dropApi (mem_dropSlash hd))
  · intro hadj
    have hadj0 : noAdjPair (· = '_') n0 = true := by
      rw [hn0]
      exact noAdjPair_replaceSep (noAdjPair_dropSlash (noAdjPair_dropApi hadj))
    have hn1last : n1.getLast? ≠ some '_' := by
      rw [hn1]
      exact trailing_of_noUU hadj0
    have hn2last : n2.getLast? ≠ some '_' := by
      rw [hn2]
      split
      · decide
      · exact hn1last
    have hne : (method.lower ++ '_' :: n2) ≠ [] := by
      rw [hml]
      simp
    rw [Bool.eq_false_iff]
    intro hcon
    have h1 := isSuffixOf_singleton_iff.mp hcon
    rw [collapse_getLast? hne, getLast?_append_right (by simp),
      getLast?_cons_of_ne_nil hn2ne] at h1
    exact hn2last h1

/-- Claim C1 counterexample: the endpoint `/api/Users--` is produced by the
route resolver from an app-router route file in a directory named
`Users--`, and its GET tool name `get_Users_` is neither fully lowercase
nor free of a trailing underscore. -/
theorem generateToolName_claim_counterexample :
    ApiRouteScanner.pathToEndpoint (str "app/api/Users--/route.ts")
      = str "/api/Users--" ∧
    ToolGenerator.generateToolName (str "/api/Users--") HttpMethod.GET
      = str "get_Users_" ∧
    toLowerStr (str "get_Users_") ≠ str "get_Users_" ∧
    ['_'].isSuffixOf (str "get_Users_") = true := by
  decide

/-- Witness for `generateToolName_shape` at the endpoint `/api/users`. -/
theorem generateToolName_shape_witness :
    (toLowerStr (str "/api/users") = str "/api/users" ∧
      noAdjPair sepChar (str "/api/users") = true) ∧
    containsSub (str "__")
      (ToolGenerator.generateToolName (str "/api/users") HttpMethod.GET) = false ∧
    toLowerStr (ToolGenerator.generateToolName (str "/api/users") HttpMethod.GET)
      = ToolGenerator.generateToolName (str "/api/users") HttpMethod.GET ∧
    ['_'].isSuffixOf
      (ToolGenerator.generateToolName (str "/api/users") HttpMethod.GET) = false := by
  refine ⟨⟨by decide, by decide⟩, ?_, ?_, ?_⟩
  · exact (generateToolName_shape (str "/api/users") HttpMethod.GET).1
  · exact (generateToolName_shape (str "/api/users") HttpMethod.GET).2.2.1 (by decide)
  · exact (generateToolName_shape (str "/api/users") HttpMethod.GET).2.2.2 (by decide)

/-- Claim C3: a generated tool is enabled exactly when its method is not
DELETE (DELETE tools are disabled by default, all others enabled). -/
theorem generateTool_enabled (route : RouteInfo) (m : MethodInfo) :
    (ToolGenerator.generateTool route m).enabled
      = decide (m.method ≠ HttpMethod.DELETE) := by
  obtain ⟨mm, ep, ps, bps, ha⟩ := m
  cases mm <;> rfl

/-- Claim C4: a generated DELETE tool without detected auth carries both
the destructive-operation and the missing-authentication issues, and a GET
tool never carries the missing-authentication issue. -/
theorem generateTool_issues_policy (route : RouteInfo) (m : MethodInfo) :
    ((m.method = HttpMethod.DELETE ∧ m.hasAuth = false) →
      str "destructive_operation"
        ∈ ((ToolGenerator.generateTool route m).issues.getD []) ∧
      str "no_authentication_detected"
        ∈ ((ToolGenerator.generateTool route m).issues.getD [])) ∧
    (m.method = HttpMethod.GET →
      str "no_authentication_detected"
        ∉ ((ToolGenerator.generateTool route m).issues.getD [])) := by
  obtain ⟨mm, ep, ps, bps, ha⟩ := m
  have hiss : (ToolGenerator.generateTool route ⟨mm, ep, ps, bps, ha⟩).issues
      = some ((if mm = HttpMethod.DELETE then [str "destructive_operation"] else []) ++
        (if !ha && (mm = HttpMethod.POST || mm = HttpMethod.PUT ||
            mm = HttpMethod.DELETE || mm = HttpMethod.PATCH) then
          [str "no_authentication_detected"]
        else [])) := rfl
  simp only [hiss, Option.getD_some]
  cases mm <;> cases ha <;>
    refine ⟨fun h => ?_, fun h => ?_⟩ <;>
    first
      | exact absurd h.1 (by decide)
      | exact absurd h.2 (by decide)
      | exact absurd h (by decide)
      | decide

/-- Witness for `generateTool_issues_policy`: a concrete unauthenticated
DELETE route and a concrete GET route. -/
theorem generateTool_issues_policy_witness :
    (str "destructive_operation"
      ∈ ((ToolGenerator.generateTool
          ⟨str "/r.ts", str "r.ts", []⟩
          ⟨HttpMethod.DELETE, str "/api/users", [], [], false⟩).issues.getD []) ∧
     str "no_authentication_detected"
      ∈ ((ToolGenerator.generateTool
          ⟨str "/r.ts", str "r.ts", []⟩
          ⟨HttpMethod.DELETE, str "/api/users", [], [], false⟩).issues.getD [])) ∧
    str "no_authentication_detected"
      ∉ ((ToolGenerator.generateTool
          ⟨str "/r.ts", str "r.ts", []⟩
          ⟨HttpMethod.GET, str "/api/users", [], [], false⟩).issues.getD []) :=
  ⟨(generateTool_issues_policy ⟨str "/r.ts", str "r.ts", []⟩
      ⟨HttpMethod.DELETE, str "/api/users", [], [], false⟩).1 ⟨rfl, rfl⟩,
   (generateTool_issues_policy ⟨str "/r.ts", str "r.ts", []⟩
      ⟨HttpMethod.GET, str "/api/users", [], [], false⟩).2 rfl⟩

/-- Claim C7: contrary to the specification, a route file at the API root
does not resolve to `/api`: the api-directory prefix regex requires a
trailing slash, so the prefix is never stripped for the root file and the
endpoint comes out as `/apiapp/api` (resp. `/apipages/api`). -/
theorem pathToEndpoint_root_bug :
    ApiRouteScanner.pathToEndpoint (str "app/api/route.ts") = str "/apiapp/api" ∧
    ApiRouteScanner.pathToEndpoint (str "pages/api/index.ts")
      = str "/apipages/api" ∧
    ApiRouteScanner.pathToEndpoint (str "app/api/route.ts") ≠ str "/api" := by
  decide

/-- Claim C2: for a route file path whose bracket groups are exactly `[a]`
followed by `[b]` (with the groups surviving the extension, `route` or
`index` and api-directory stripping), extraction yields exactly the two
required string path parameters named `a` then `b`, and the resolved
endpoint contains `:a` before `:b`. -/
theorem dynamic_segments_round_trip
    (relativePath x y z x' z' a b : Str)
    (hpath : relativePath
      = x ++ '[' :: (a ++ ']' :: (y ++ '[' :: (b ++ ']' :: z))))
    (hx : bracketFree x = true) (hy : bracketFree y = true)
    (hz : bracketFree z = true)
    (ha : bracketFree a = true) (hb : bracketFree b = true)
    (hane : a ≠ []) (hbne : b ≠ [])
    (hstrip : ApiRouteScanner.stripPhase relativePath
      = x' ++ '[' :: (a ++ ']' :: (y ++ '[' :: (b ++ ']' :: z'))))
    (hx' : bracketFree x' = true) (hz' : bracketFree z' = true) :
    ApiRouteScanner.extractParams relativePath =
      [{ name := a, type := str "string", required := true,
         description := some (str "The " ++ a ++ str " parameter") },
       { name := b, type := str "string", required := true,
         description := some (str "The " ++ b ++ str " parameter") }] ∧
    containsInOrder (':' :: a) (':' :: b)
      (ApiRouteScanner.pathToEndpoint relativePath) = true := by
  have hnames : extractBracketNames relativePath = [a, b] := by
    rw [hpath]
    unfold extractBracketNames
    rw [ebnAux_skip _ (bracketFree_spec hx).1, ebnAux_open,
      ebnAux_group [] _ (bracketFree_spec ha).2 (by simpa using hane),
      ebnAux_skip _ (bracketFree_spec hy).1, ebnAux_open,
      ebnAux_group [] _ (bracketFree_spec hb).2 (by simpa using hbne),
      ebnAux_none_end (bracketFree_spec hz).1]
    simp
  constructor
  · unfold ApiRouteScanner.extractParams
    rw [hnames]
    rfl
  · have hconv : convertBrackets (ApiRouteScanner.stripPhase relativePath)
        = x' ++ ':' :: a ++ (y ++ ':' :: b ++ convertBracketsAux none z') := by
      rw [hstrip]
      unfold convertBrackets
      rw [cbAux_skip _ (bracketFree_spec hx').1, cbAux_open,
        cbAux_group [] _ (bracketFree_spec ha).2 (by simpa using hane),
        cbAux_skip _ (bracketFree_spec hy).1, cbAux_open,
        cbAux_group [] _ (bracketFree_spec hb).2 (by simpa using hbne)]
      simp
    simp only [ApiRouteScanner.pathToEndpoint, hconv]
    have hq : containsSub (':' :: b)
        (y ++ ':' :: b ++ convertBracketsAux none z') = true :=
      containsSub_mid (':' :: b) y (convertBracketsAux none z')
    by_cases hpre : (str "/api").isPrefixOf
        (x' ++ ':' :: a ++ (y ++ ':' :: b ++ convertBracketsAux none z')) = true
    · rw [if_pos hpre, if_neg (by simp)]
      exact containsInOrder_intro x' (by simp) hq
    · rw [if_neg hpre, if_neg (by simp)]
      exact containsInOrder_intro (str "/api" ++ x') (by simp) hq

/-- Witness for `dynamic_segments_round_trip` at the app-router path
`app/api/users/[uid]/posts/[pid]/route.ts`. -/
theorem dynamic_segments_round_trip_witness :
    ApiRouteScanner.extractParams
        (str "app/api/users/[uid]/posts/[pid]/route.ts") =
      [{ name := str "uid", type := str "string", required := true,
         description := some (str "The " ++ str "uid" ++ str " parameter") },
       { name := str "pid", type := str "string", required := true,
         description := some (str "The " ++ str "pid" ++ str " parameter") }] ∧
    containsInOrder (':' :: str "uid") (':' :: str "pid")
      (ApiRouteScanner.pathToEndpoint
        (str "app/api/users/[uid]/posts/[pid]/route.ts")) = true :=
  dynamic_segments_round_trip
    (str "app/api/users/[uid]/posts/[pid]/route.ts")
    (str "app/api/users/") (str "/posts/") (str "/route.ts")
    (str "/users/") (str "") (str "uid") (str "pid")
    (by decide) (by decide) (by decide) (by decide) (by decide) (by decide)
    (by decide) (by decide) (by decide) (by decide) (by decide)

/-- Claim C10: the fixer only ever rewrites the description, instruction,
parameter descriptions, name, id and issues of a tool. Its method, endpoint,
source, enabled flag, auth, fixed_params, parameter-block type and required
list, and the name, order and type of every parameter are unchanged. -/
theorem fixTool_frame_effect (t : Tool) :
    (ToolFixer.fixTool t).tool.method = t.method ∧
    (ToolFixer.fixTool t).tool.endpoint = t.endpoint ∧
    (ToolFixer.fixTool t).tool.source = t.source ∧
    (ToolFixer.fixTool t).tool.enabled = t.enabled ∧
    (ToolFixer.fixTool t).tool.auth = t.auth ∧
    (ToolFixer.fixTool t).tool.fixed_params = t.fixed_params ∧
    (ToolFixer.fixTool t).tool.parameters.type = t.parameters.type ∧
    (ToolFixer.fixTool t).tool.parameters.required = t.parameters.required ∧
    (ToolFixer.fixTool t).tool.parameters.properties.map
        (fun p => (p.1, p.2.type))
      = t.parameters.properties.map (fun p => (p.1, p.2.type)) := by
  obtain ⟨h1, h2, h3, h4, h5, h6, h7, h8⟩ := fixTool_tool_frame t
  refine ⟨h1, h2, h3, h4, h5, h6, h7, h8, ?_⟩
  rw [fixTool_tool_props, List.map_map]
  refine List.map_congr_left (fun p hp => ?_)
  by_cases hc : ToolFixer.needsParamFix p.1 p.2 = true
  · simp [hc]
  · simp [hc]

/-- Claim C9 (amended): the tool returned by the fixer satisfies id = name
whenever the input tool already did, or the input name triggers the naming
fix; when the input has id ≠ name and a clean name, the fixer touches
neither field and the inequality survives. -/
theorem fixTool_id_eq_name (t : Tool)
    (h : t.id = t.name ∨ ToolFixer.hasNamingIssues t.name = true) :
    (ToolFixer.fixTool t).tool.id = (ToolFixer.fixTool t).tool.name := by
  rw [fixTool_tool_id, fixTool_tool_name]
  by_cases hn : ToolFixer.hasNamingIssues t.name = true
  · rw [if_pos hn, if_pos hn]
  · rw [if_neg hn, if_neg hn]
    rcases h with h | h
    · exact h
    · exact absurd h hn

/-- A tool with id `a`, name `b` and no naming issue leaves the fixer with
id ≠ name, refuting the unconditional reading of the claim. -/
theorem fixTool_id_eq_name_counterexample :
    (ToolFixer.fixTool c9tool).tool.id
      ≠ (ToolFixer.fixTool c9tool).tool.name := by
  decide

/-- Witness for `fixTool_id_eq_name` at a tool with id = name. -/
theorem fixTool_id_eq_name_witness :
    (c9wit.id = c9wit.name ∨ ToolFixer.hasNamingIssues c9wit.name = true) ∧
    (ToolFixer.fixTool c9wit).tool.id = (ToolFixer.fixTool c9wit).tool.name :=
  ⟨Or.inl rfl, fixTool_id_eq_name c9wit (Or.inl rfl)⟩

/-- Claim C8: every issue other than the two explicitly modeled classes
`missing_description` and `missing_parameter_descriptions` survives the
fixer. -/
theorem fixTool_keeps_unmodeled_issues (t : Tool) (issue : Str)
    (hmem : issue ∈ t.issues.getD [])
    (h1 : issue ≠ str "missing_description")
    (h2 : issue ≠ str "missing_parameter_descriptions") :
    issue ∈ (ToolFixer.fixTool t).tool.issues.getD [] := by
  rw [fixTool_tool_issues]
  simp only [Option.getD_some]
  exact List.mem_filter.mpr ⟨mem_dedupeFirst.mpr hmem, issuePred_keeps h1 h2⟩

/-- Witness for `fixTool_keeps_unmodeled_issues`: the destructive-operation
marker of a DELETE tool survives fixing. -/
theorem fixTool_keeps_unmodeled_issues_witness :
    str "destructive_operation" ∈ c8wit.issues.getD [] ∧
    str "destructive_operation"
      ∈ (ToolFixer.fixTool c8wit).tool.issues.getD [] :=
  ⟨by decide,
   fixTool_keeps_unmodeled_issues c8wit (str "destructive_operation")
     (by decide) (by decide) (by decide)⟩

/-- Claim C6 (amended): on a blank description the fixer installs its own
template `ToolFixer.generateDescription`; that template agrees with the
generator's for POST, PUT, PATCH and DELETE, and for GET endpoints without
a colon (absent brace segments, whose handling differs between the two
resource extractors), but for a GET endpoint containing `:id` the fixer
produces `Retrieve {resource} by ID` where the generator produces
`Get {resource} by ID`. -/
theorem fixer_description_templates (t : Tool)
    (hblank : isBlank t.description = true) :
    ((ToolFixer.fixTool t).tool.description
        = ToolFixer.generateDescription t) ∧
    (braceL ∉ t.endpoint →
      (t.method = HttpMethod.POST ∨ t.method = HttpMethod.PUT ∨
        t.method = HttpMethod.PATCH ∨ t.method = HttpMethod.DELETE) →
      ToolFixer.generateDescription t
        = ToolGenerator.generateDescription t.endpoint t.method) ∧
    (t.method = HttpMethod.GET → ':' ∉ t.endpoint → braceL ∉ t.endpoint →
      ToolFixer.generateDescription t
        = ToolGenerator.generateDescription t.endpoint t.method) ∧
    (t.method = HttpMethod.GET → containsSub (str ":id") t.endpoint = true →
      ToolFixer.generateDescription t
        = str "Retrieve " ++ ToolFixer.extractResourceName t.endpoint
            ++ str " by ID") := by
  refine ⟨?_, ?_, ?_, ?_⟩
  · rw [fixTool_tool_description, if_pos hblank]
  · intro hbrace hm
    have hagree := extractResourceName_agree t.endpoint hbrace
    rcases hm with hm | hm | hm | hm <;>
      simp [ToolFixer.generateDescription, ToolGenerator.generateDescription,
        hm, hagree]
  · intro hm hcolon hbrace
    have hagree := extractResourceName_agree t.endpoint hbrace
    have h1 : containsSub (str ":id") t.endpoint = false :=
      containsSub_head_notMem hcolon
    have h2 : containsSub (str ":") t.endpoint = false :=
      containsSub_head_notMem hcolon
    have h3 : containsSub (str "\x7bid\x7d") t.endpoint = false := by
      rw [show str "\x7bid\x7d" = braceL :: (str "id\x7d") by decide]
      exact containsSub_head_notMem hbrace
    simp [ToolFixer.generateDescription, ToolGenerator.generateDescription,
      hm, h1, h2, h3, hagree]
  · intro hm hid
    simp [ToolFixer.generateDescription, hm, hid]

/-- For the GET tool over `/api/users/:id` with a blank description, the
fixer writes `Retrieve user by ID` while the generator's template is
`Get user by ID`: the two components do not produce the identical sentence
claimed. -/
theorem fixer_description_templates_counterexample :
    isBlank c6get.description = true ∧
    (ToolFixer.fixTool c6get).tool.description
      = str "Retrieve user by ID" ∧
    ToolGenerator.generateDescription c6get.endpoint c6get.method
      = str "Get user by ID" ∧
    (ToolFixer.fixTool c6get).tool.description
      ≠ ToolGenerator.generateDescription c6get.endpoint c6get.method := by
  decide

/-- Witness for `fixer_description_templates` at the blank-description POST
tool over `/api/users`. -/
theorem fixer_description_templates_witness :
    ((ToolFixer.fixTool c6post).tool.description
        = ToolFixer.generateDescription c6post) ∧
    (braceL ∉ c6post.endpoint →
      (c6post.method = HttpMethod.POST ∨ c6post.method = HttpMethod.PUT ∨
        c6post.method = HttpMethod.PATCH ∨
        c6post.method = HttpMethod.DELETE) →
      ToolFixer.generateDescription c6post
        = ToolGenerator.generateDescription c6post.endpoint c6post.method) ∧
    (c6post.method = HttpMethod.GET → ':' ∉ c6post.endpoint →
      braceL ∉ c6post.endpoint →
      ToolFixer.generateDescription c6post
        = ToolGenerator.generateDescription c6post.endpoint c6post.method) ∧
    (c6post.method = HttpMethod.GET →
      containsSub (str ":id") c6post.endpoint = true →
      ToolFixer.generateDescription c6post
        = str "Retrieve " ++ ToolFixer.extractResourceName c6post.endpoint
            ++ str " by ID") :=
  fixer_description_templates c6post (by decide)

/-- Claim C5 (amended): a second run of the fixer changes no tool and
reports no fixes, provided every parameter description the fixer could
regenerate is non-blank. (The regeneration template yields a blank string
exactly for a degenerate parameter name made of underscore, hyphen and
whitespace characters together with an unrecognized type, and such a blank
regenerated description re-triggers the repair on every rerun.) -/
theorem fixAll_idempotent (tools : List Tool)
    (h : ∀ t ∈ tools, ∀ p ∈ t.parameters.properties,
      isBlank (ToolFixer.generateParameterDescription p.1 p.2.type t)
        = false) :
    ((ToolFixer.fixAll ((ToolFixer.fixAll tools).map
          ToolFixer.FixResult.tool)).map ToolFixer.FixResult.tool
      = (ToolFixer.fixAll tools).map ToolFixer.FixResult.tool) ∧
    ∀ r ∈ ToolFixer.fixAll ((ToolFixer.fixAll tools).map
        ToolFixer.FixResult.tool),
      r.fixed = false ∧ r.fixes = [] := by
  have key : ∀ t ∈ tools, ToolFixer.fixTool ((ToolFixer.fixTool t).tool)
      = ⟨(ToolFixer.fixTool t).tool, false, []⟩ :=
    fun t ht => fixTool_output_fixpoint t (h t ht)
  constructor
  · unfold ToolFixer.fixAll
    simp only [List.map_map]
    refine List.map_congr_left (fun t ht => ?_)
    simp only [Function.comp]
    rw [key t ht]
  · intro r hr
    unfold ToolFixer.fixAll at hr
    simp only [List.map_map] at hr
    obtain ⟨t, ht, rfl⟩ := List.mem_map.mp hr
    simp only [Function.comp]
    rw [key t ht]
    exact ⟨rfl, rfl⟩

/-- On the tool whose parameter is named `_` with unrecognized type `x`,
the second fixer pass still reports a repair: fixAll is not idempotent
unconditionally. -/
theorem fixAll_idempotent_counterexample :
    (ToolFixer.fixAll ((ToolFixer.fixAll [c5tool]).map
        ToolFixer.FixResult.tool)).map (fun r => r.fixed) = [true] := by
  decide

/-- Witness for `fixAll_idempotent` on a singleton list whose tool has one
conventional `id` parameter. -/
theorem fixAll_idempotent_witness :
    ((ToolFixer.fixAll ((ToolFixer.fixAll [c5wit]).map
          ToolFixer.FixResult.tool)).map ToolFixer.FixResult.tool
      = (ToolFixer.fixAll [c5wit]).map ToolFixer.FixResult.tool) ∧
    ∀ r ∈ ToolFixer.fixAll ((ToolFixer.fixAll [c5wit]).map
        ToolFixer.FixResult.tool),
      r.fixed = false ∧ r.fixes = [] :=
  fixAll_idempotent [c5wit] (by decide)

end Carla
